import Mathlib

/-!
# Multirotor 6-DoF mixer (`src/lib/mixer/mixer_multirotor_6dof.cpp`)

A shallow embedding of `MultirotorMixer6dof` and a verification of its
specification.

Modelling conventions.

* `float` values are read in two ways.  In the exact reading they are elements of an
  arbitrary linearly ordered field `α` and no operation rounds; the float literals
  `1e-6f`, `0.99f` and `0.01f` are the fractions `1/1000000`, `99/100` and `1/100`.  In
  the rounded reading (the definitions with the suffix `_fl`) a function `fl` is applied to
  the exact result of every arithmetic operation of the source and to every literal that
  is not a binary32 value, and `sqrtf` is the square root.  With `round32` for `fl` and
  `sqrt32` for `sqrtf`, on `ℚ`, the rounded reading is IEEE 754 binary32 arithmetic: round
  to nearest, ties to even, every operation rounded on its own (no fused multiply-add, no
  wider intermediate format), on the finite values: overflow to an infinity and the
  results that are not numbers are outside the model, which is why the statements about
  `mix` in the rounded reading take a thrust factor that is zero or at least `2^-60`.
  With the identity for `fl` it is the exact reading.
  The properties that rounding bears on (feasibility and idempotence of `clip_command`,
  the slew law, the zero command) are stated in the rounded reading.
* Every definition is computable, so that both readings run on `ℚ`.
* `sqrtf` is a parameter of `mix`.
* C arrays are functions from the index: `rotors i` is `_rotors[i].scale`,
  `outputs i` is `outputs[i]`, `outputs_prev i` is `_outputs_prev[i]`.
* A cell of `_outputs_prev` holds `Option α`: `none` is a bit pattern that is not
  a number (NaN), for which every comparison of the slew limiter is false.
* The control callback is the function `control`, giving the six values that
  `get_control(0, INDEX_...)` returns, in the order roll, pitch, yaw, x, y, z.
-/

set_option linter.dupNamespace false
set_option linter.unusedVariables false
set_option linter.unusedSectionVars false

namespace MultirotorMixer6dof

/-- A `matrix::Vector<float, 6>` or a `bool[6]`, indexed by the command axis:
roll, pitch, yaw, x thrust, y thrust, z thrust. -/
structure Vector6 (α : Type) where
  roll : α
  pitch : α
  yaw : α
  x_thrust : α
  y_thrust : α
  z_thrust : α
deriving DecidableEq, Repr

/-- The component `v(j)`. -/
def Vector6.get {α : Type} (v : Vector6 α) : Fin 6 → α
  | 0 => v.roll
  | 1 => v.pitch
  | 2 => v.yaw
  | 3 => v.x_thrust
  | 4 => v.y_thrust
  | 5 => v.z_thrust

/-- The vector with the components `f 0`, ..., `f 5`. -/
def Vector6.ofFn {α : Type} (f : Fin 6 → α) : Vector6 α :=
  ⟨f 0, f 1, f 2, f 3, f 4, f 5⟩

/-- Modelled from the spec: the `saturation_status` flags declared in `mixer.h`,
in the order of the published bit layout.  `value = 0` clears all of them. -/
structure SaturationStatus where
  valid : Bool
  roll_pos : Bool
  roll_neg : Bool
  pitch_pos : Bool
  pitch_neg : Bool
  yaw_pos : Bool
  yaw_neg : Bool
  thrust_pos : Bool
  thrust_neg : Bool
  x_thrust_pos : Bool
  x_thrust_neg : Bool
  y_thrust_pos : Bool
  y_thrust_neg : Bool
  z_thrust_pos : Bool
  z_thrust_neg : Bool
  x_thrust_valid : Bool
  y_thrust_valid : Bool
  z_thrust_valid : Bool
deriving DecidableEq, Repr

/-- The status word after `_saturation_status.value = 0`. -/
def SaturationStatus.zero : SaturationStatus :=
  ⟨false, false, false, false, false, false, false, false, false,
   false, false, false, false, false, false, false, false, false⟩

/-- The member variables of `MultirotorMixer6dof`. -/
structure Mixer (α : Type) where
  roll_scale : α
  pitch_scale : α
  yaw_scale : α
  x_scale : α
  y_scale : α
  z_scale : α
  idle_speed : α
  out_max : α
  out_min : α
  delta_out_max : α
  thrust_factor : α
  rotor_count : Nat
  rotors : Nat → Vector6 α
  outputs_prev : Nat → Option α
  controlled_axes : Vector6 Bool
  saturation_status : SaturationStatus

section Defs

variable {α : Type} [LinearOrderedField α]

/-- The scalar product `a * b` of two `matrix::Vector<float, 6>`. -/
def dot (a b : Vector6 α) : α :=
  a.roll * b.roll + a.pitch * b.pitch + a.yaw * b.yaw + a.x_thrust * b.x_thrust
    + a.y_thrust * b.y_thrust + a.z_thrust * b.z_thrust

/-- Modelled from the spec: `math::constrain` of `mathlib/math/Limits.hpp`, which
clamps `val` to `[min_val, max_val]`. -/
def constrain (val min_val max_val : α) : α :=
  if val < min_val then min_val else if val > max_val then max_val else val

/-- The `int` that a `float` converts to: truncation towards zero. -/
def float_to_int [FloorRing α] (x : α) : Int :=
  if 0 ≤ x then Int.floor x else Int.ceil x

/-- The `float` whose four bytes all equal `byte` (IEEE 754 binary32), `none` when
the bit pattern is not a finite number. -/
def float_of_byte (byte : Nat) : Option α :=
  let sign := byte / 128
  let e := (byte % 128) * 2 + byte / 128
  let mant := (byte % 128) * 65536 + byte * 256 + byte
  let s : α := if sign = 1 then -1 else 1
  if e = 255 then none
  else if e = 0 then some (s * (mant : α) / 2 ^ 149)
  else if 127 ≤ e then some (s * (1 + (mant : α) / 2 ^ 23) * 2 ^ (e - 127))
  else some (s * (1 + (mant : α) / 2 ^ 23) / 2 ^ (127 - e))

/-- The content of a `float` cell after `memset(ptr, c, n * sizeof(float))` with a
`float` argument `c`: `c` is converted to `int`, then to `unsigned char`, and that
byte is written to each of the four bytes of the cell. -/
def memset_float [FloorRing α] (c : α) : Option α :=
  float_of_byte (float_to_int c % 256).toNat

/-- The constructor `MultirotorMixer6dof::MultirotorMixer6dof`.  The geometry is
given by what the tables `_config_rotor_count` and `_config_index` hold for it.  The
status word, which the constructor does not write, is taken as cleared, and the cells
outside the allocation of `_outputs_prev` as holding no number. -/
def MultirotorMixer6dof [FloorRing α] (rotor_count : Nat) (rotors : Nat → Vector6 α)
    (roll_scale pitch_scale yaw_scale x_scale y_scale z_scale idle_speed : α) : Mixer α :=
  let idle_speed_shifted : α := -1 + idle_speed * 2
  { roll_scale := roll_scale
    pitch_scale := pitch_scale
    yaw_scale := yaw_scale
    x_scale := x_scale
    y_scale := y_scale
    z_scale := z_scale
    idle_speed := idle_speed_shifted
    out_max := 1
    out_min := idle_speed
    delta_out_max := 0
    thrust_factor := 0
    rotor_count := rotor_count
    rotors := rotors
    outputs_prev := fun i => if i < rotor_count then memset_float idle_speed_shifted else none
    controlled_axes := Vector6.ofFn fun j =>
      let norm2 := (List.range rotor_count).foldl
        (fun acc i => acc + (rotors i).get j * (rotors i).get j) 0
      decide (norm2 > 1 / 1000000)
    saturation_status := SaturationStatus.zero }

/-- The method `get_command`: each control input times its axis scale, constrained to [-1, 1]. -/
def get_command (m : Mixer α) (control : Fin 6 → α) : Vector6 α :=
  ⟨constrain (control 0 * m.roll_scale) (-1) 1,
   constrain (control 1 * m.pitch_scale) (-1) 1,
   constrain (control 2 * m.yaw_scale) (-1) 1,
   constrain (control 3 * m.x_scale) (-1) 1,
   constrain (control 4 * m.y_scale) (-1) 1,
   constrain (control 5 * m.z_scale) (-1) 1⟩

/-- The table `prioritary_axes` of `clip_command`. -/
def prioritary_axes : List (Vector6 Bool) :=
  [⟨false, false, false, false, false, true⟩,
   ⟨true, true, false, false, false, false⟩,
   ⟨false, false, true, false, false, false⟩,
   ⟨false, false, false, true, true, false⟩]

/-- The body of the rotor loop of `clip_command` for the rotor with scale `b`:
`new_command` is moved to `command + k * u` when the rotor is saturated. -/
def clip_rotor (out_min out_max : α) (command u : Vector6 α) (new_command : Vector6 α)
    (b : Vector6 α) : Vector6 α :=
  let out := dot new_command b
  if out > out_max then
    let ub := dot u b
    if abs ub > 1 / 1000000 then
      let k := (out_max - dot command b) / ub
      if k ≥ 0 ∧ k ≤ 1 then Vector6.ofFn fun j => command.get j + k * u.get j else new_command
    else new_command
  else if out < out_min then
    let ub := dot u b
    if abs ub > 1 / 1000000 then
      let k := (out_min - dot command b) / ub
      if k ≥ 0 ∧ k ≤ 1 then Vector6.ofFn fun j => command.get j + k * u.get j else new_command
    else new_command
  else new_command

/-- The body of the priority loop of `clip_command` for one row `axes` of
`prioritary_axes`: the new baseline. -/
def clip_group (m : Mixer α) (desired_command : Vector6 α) (command : Vector6 α)
    (axes : Vector6 Bool) : Vector6 α :=
  let new_command : Vector6 α :=
    Vector6.ofFn fun j => if axes.get j then desired_command.get j else command.get j
  let u : Vector6 α := Vector6.ofFn fun j => new_command.get j - command.get j
  (List.range m.rotor_count).foldl
    (fun nc ii => clip_rotor m.out_min m.out_max command u nc (m.rotors ii)) new_command

/-- The method `clip_command`. -/
def clip_command (m : Mixer α) (desired_command : Vector6 α) : Vector6 α :=
  prioritary_axes.foldl (clip_group m desired_command) ⟨0, 0, 0, 0, 0, 0⟩

/-- The thrust model inversion of `mix` (taken when `_thrust_factor > 0`), applied
to the mixed value `o` of one rotor. -/
def thrust_inversion (sqrtf : α → α) (thrust_factor o : α) : α :=
  if thrust_factor > 0 then
    -(1 - thrust_factor) / (2 * thrust_factor)
      + sqrtf ((1 - thrust_factor) * (1 - thrust_factor) / (4 * thrust_factor * thrust_factor)
          + (if o < 0 then 0 else o / thrust_factor))
  else o

/-- The body of the first rotor loop of `mix`: the value written to `outputs[i]`. -/
def mix_rotor (sqrtf : α → α) (m : Mixer α) (command : Vector6 α) (i : Nat) : α :=
  constrain (thrust_inversion sqrtf m.thrust_factor (dot command (m.rotors i))) m.out_min m.out_max

/-- Setting the flag `<axis>_pos` of axis `j`. -/
def set_pos (st : SaturationStatus) : Fin 6 → SaturationStatus
  | 0 => { st with roll_pos := true }
  | 1 => { st with pitch_pos := true }
  | 2 => { st with yaw_pos := true }
  | 3 => { st with x_thrust_pos := true }
  | 4 => { st with y_thrust_pos := true }
  | 5 => { st with z_thrust_pos := true }

/-- Setting the flag `<axis>_neg` of axis `j`. -/
def set_neg (st : SaturationStatus) : Fin 6 → SaturationStatus
  | 0 => { st with roll_neg := true }
  | 1 => { st with pitch_neg := true }
  | 2 => { st with yaw_neg := true }
  | 3 => { st with x_thrust_neg := true }
  | 4 => { st with y_thrust_neg := true }
  | 5 => { st with z_thrust_neg := true }

/-- The flag `<axis>_pos` of axis `j`. -/
def get_pos (st : SaturationStatus) : Fin 6 → Bool
  | 0 => st.roll_pos
  | 1 => st.pitch_pos
  | 2 => st.yaw_pos
  | 3 => st.x_thrust_pos
  | 4 => st.y_thrust_pos
  | 5 => st.z_thrust_pos

/-- The flag `<axis>_neg` of axis `j`. -/
def get_neg (st : SaturationStatus) : Fin 6 → Bool
  | 0 => st.roll_neg
  | 1 => st.pitch_neg
  | 2 => st.yaw_neg
  | 3 => st.x_thrust_neg
  | 4 => st.y_thrust_neg
  | 5 => st.z_thrust_neg

/-- One `if (scale > 0) ... else if (scale < 0) ...` block of the `clipping_high`
branch of `update_saturation_status`. -/
def mark_high (scale : Vector6 α) (st : SaturationStatus) (j : Fin 6) : SaturationStatus :=
  if scale.get j > 0 then set_pos st j else if scale.get j < 0 then set_neg st j else st

/-- One `if (scale > 0) ... else if (scale < 0) ...` block of the `clipping_low`
branch of `update_saturation_status`. -/
def mark_low (scale : Vector6 α) (st : SaturationStatus) (j : Fin 6) : SaturationStatus :=
  if scale.get j > 0 then set_neg st j else if scale.get j < 0 then set_pos st j else st

/-- The effect of `update_saturation_status` on the status word, for a rotor of
scale `scale`: the six blocks of each branch in the order roll, pitch, yaw, x, y, z,
then `valid = true`. -/
def update_flags (scale : Vector6 α) (st : SaturationStatus) (clipping_high clipping_low : Bool) :
    SaturationStatus :=
  let st1 := if clipping_high then [0, 1, 2, 3, 4, 5].foldl (mark_high scale) st else st
  let st2 := if clipping_low then [0, 1, 2, 3, 4, 5].foldl (mark_low scale) st1 else st1
  { st2 with valid := true }

/-- The method `update_saturation_status`. -/
def update_saturation_status (m : Mixer α) (index : Nat) (clipping_high clipping_low : Bool) :
    Mixer α :=
  { m with saturation_status :=
      update_flags (m.rotors index) m.saturation_status clipping_high clipping_low }

/-- The body of the second rotor loop of `mix` up to the slew limiter: from the
output `out` of the first loop and the previous output `prev`, the limited output and
the values of `clipping_high` and `clipping_low` passed to `update_saturation_status`. -/
def limit_output (out_min delta_out_max : α) (out : α) (prev : Option α) : α × Bool × Bool :=
  let clipping_high : Bool := decide (out > 99 / 100)
  let clipping_low : Bool := !clipping_high && decide (out < out_min + 1 / 100)
  if delta_out_max > 0 then
    match prev with
    | none => (out, clipping_high, clipping_low)
    | some p =>
      let delta_out := out - p
      if delta_out > delta_out_max then (p + delta_out_max, true, clipping_low)
      else if delta_out < -delta_out_max then (p - delta_out_max, clipping_high, true)
      else (out, clipping_high, clipping_low)
  else (out, clipping_high, clipping_low)

/-- The body of the second rotor loop of `mix` for rotor `i`, on the output buffer and
the mixer. -/
def slew_rotor (st : (Nat → α) × Mixer α) (i : Nat) : (Nat → α) × Mixer α :=
  let r := limit_output st.2.out_min st.2.delta_out_max (st.1 i) (st.2.outputs_prev i)
  let m1 : Mixer α := { st.2 with outputs_prev := Function.update st.2.outputs_prev i (some r.1) }
  (Function.update st.1 i r.1, update_saturation_status m1 i r.2.1 r.2.2)

/-- What `mix` returns and leaves behind: the return value, the output buffer and the
mixer. -/
structure MixResult (α : Type) where
  count : Nat
  outputs : Nat → α
  mixer : Mixer α

/-- The method `mix`, called with the output buffer `outputs` of capacity `space`. -/
def mix (sqrtf : α → α) (m : Mixer α) (control : Fin 6 → α) (outputs : Nat → α)
    (space : Nat) : MixResult α :=
  let raw_command := get_command m control
  let command : Vector6 α :=
    Vector6.ofFn fun j => if !m.controlled_axes.get j then 0 else raw_command.get j
  let command := clip_command m command
  let outputs := (List.range m.rotor_count).foldl
    (fun out i => Function.update out i (mix_rotor sqrtf m command i)) outputs
  let m1 : Mixer α :=
    { m with saturation_status :=
        { SaturationStatus.zero with
          x_thrust_valid := m.controlled_axes.get 3
          y_thrust_valid := m.controlled_axes.get 4
          z_thrust_valid := m.controlled_axes.get 5 } }
  let st := (List.range m.rotor_count).foldl slew_rotor (outputs, m1)
  { count := m.rotor_count
    outputs := st.1
    mixer := { st.2 with delta_out_max := 0 } }

/-- The command that `mix` hands to the rotor loops: the raw command with the
uncontrolled axes removed, passed through `clip_command`. -/
def mix_command (m : Mixer α) (control : Fin 6 → α) : Vector6 α :=
  clip_command m
    (Vector6.ofFn fun j => if !m.controlled_axes.get j then 0 else (get_command m control).get j)

/-- The limited output and the two clipping flags of rotor `i` in a call of `mix`. -/
def mix_limit (sqrtf : α → α) (m : Mixer α) (control : Fin 6 → α) (i : Nat) : α × Bool × Bool :=
  limit_output m.out_min m.delta_out_max (mix_rotor sqrtf m (mix_command m control) i)
    (m.outputs_prev i)

/-- The status word after the second rotor loop of `mix` has run over the rotors
`0 .. n-1`, given the clipping flags of each rotor. -/
def status_after (rotors : Nat → Vector6 α) (flags : Nat → Bool × Bool) (st : SaturationStatus)
    (n : Nat) : SaturationStatus :=
  (List.range n).foldl (fun s i => update_flags (rotors i) s (flags i).1 (flags i).2) st

/-- The status word at the start of the second rotor loop of `mix`. -/
def status_start (m : Mixer α) : SaturationStatus :=
  { SaturationStatus.zero with
    x_thrust_valid := m.controlled_axes.get 3
    y_thrust_valid := m.controlled_axes.get 4
    z_thrust_valid := m.controlled_axes.get 5 }

/-- A command saturates no motor of the mixer. -/
def feasible (m : Mixer α) (y : Vector6 α) : Prop :=
  ∀ i, i < m.rotor_count → m.out_min ≤ dot y (m.rotors i) ∧ dot y (m.rotors i) ≤ m.out_max

/-- The point `c + k * u`, as `clip_command` computes it component by component. -/
def along (c u : Vector6 α) (k : α) : Vector6 α :=
  Vector6.ofFn fun j => c.get j + k * u.get j

/-- The priority group of the command axis `j`: the index of the row of
`prioritary_axes` that holds it (0 for z, 1 for roll and pitch, 2 for yaw, 3 for x and y). -/
def priority_group (j : Fin 6) : Nat :=
  prioritary_axes.findIdx fun axes => axes.get j

/-- The baseline of `clip_command` after the priority loop has run over the rows
`0 .. g` of `prioritary_axes`. -/
def clip_upto (m : Mixer α) (d : Vector6 α) (g : Nat) : Vector6 α :=
  (prioritary_axes.take (g + 1)).foldl (clip_group m d) ⟨0, 0, 0, 0, 0, 0⟩

/-- The integer nearest to `x`, the even one of the two when `x` lies halfway between two
integers. -/
def round_ne (x : ℚ) : ℤ :=
  if x - ⌊x⌋ < 1 / 2 then ⌊x⌋
  else if 1 / 2 < x - ⌊x⌋ then ⌊x⌋ + 1
  else if ⌊x⌋ % 2 = 0 then ⌊x⌋ else ⌊x⌋ + 1

/-- The IEEE 754 binary32 value nearest to the rational `x` (round to nearest, ties to
even): `x` is rounded to a multiple of the unit in the last place `2 ^ (e - 23)` of its
binade, `e` being the exponent of `x`, at least -126 (below it the values are subnormal).
The exponent is not bounded above: a result beyond the largest finite binary32 value is
outside the model. -/
def round32 (x : ℚ) : ℚ :=
  round_ne (x / 2 ^ (max (Int.log 2 |x|) (-126) - 23)) * 2 ^ (max (Int.log 2 |x|) (-126) - 23)

/-- The function `sqrtf` on binary32 values: the binary32 value nearest to the square root
of `x`, which lies in the binade of exponent `Int.log 4 x`.  It is taken from twice the
square root in units in the last place, rounded down to an integer.  A negative argument,
for which `sqrtf` returns no number, is outside the model. -/
def sqrt32 (x : ℚ) : ℚ :=
  if x ≤ 0 then 0
  else
    ((Nat.sqrt ⌊4 * x / (2 ^ (Int.log 4 x - 23) * 2 ^ (Int.log 4 x - 23))⌋₊ + 1) / 2 : ℕ)
      * 2 ^ (Int.log 4 x - 23)

/-- Modelled from the spec: the scalar product `a * b` of two `matrix::Vector<float, 6>` in
single precision, taken as the loop `r = 0.0f; r += a(i) * b(i)` of the matrix library over
the indices in order, each product and each sum rounded by `fl`. -/
def dot_fl (fl : α → α) (a b : Vector6 α) : α :=
  fl (fl (fl (fl (fl (fl (0 + fl (a.roll * b.roll)) + fl (a.pitch * b.pitch))
    + fl (a.yaw * b.yaw)) + fl (a.x_thrust * b.x_thrust)) + fl (a.y_thrust * b.y_thrust))
    + fl (a.z_thrust * b.z_thrust))

/-- The method `get_command` in rounded arithmetic. -/
def get_command_fl (fl : α → α) (m : Mixer α) (control : Fin 6 → α) : Vector6 α :=
  ⟨constrain (fl (control 0 * m.roll_scale)) (-1) 1,
   constrain (fl (control 1 * m.pitch_scale)) (-1) 1,
   constrain (fl (control 2 * m.yaw_scale)) (-1) 1,
   constrain (fl (control 3 * m.x_scale)) (-1) 1,
   constrain (fl (control 4 * m.y_scale)) (-1) 1,
   constrain (fl (control 5 * m.z_scale)) (-1) 1⟩

/-- The body of the rotor loop of `clip_command` in rounded arithmetic, for the rotor with
scale `b`.  The literal `1e-6f` is `fl (1 / 1000000)`. -/
def clip_rotor_fl (fl : α → α) (out_min out_max : α) (command u : Vector6 α)
    (new_command : Vector6 α) (b : Vector6 α) : Vector6 α :=
  let out := dot_fl fl new_command b
  if out > out_max then
    let ub := dot_fl fl u b
    if abs ub > fl (1 / 1000000) then
      let k := fl (fl (out_max - dot_fl fl command b) / ub)
      if k ≥ 0 ∧ k ≤ 1 then Vector6.ofFn fun j => fl (command.get j + fl (k * u.get j))
      else new_command
    else new_command
  else if out < out_min then
    let ub := dot_fl fl u b
    if abs ub > fl (1 / 1000000) then
      let k := fl (fl (out_min - dot_fl fl command b) / ub)
      if k ≥ 0 ∧ k ≤ 1 then Vector6.ofFn fun j => fl (command.get j + fl (k * u.get j))
      else new_command
    else new_command
  else new_command

/-- The body of the priority loop of `clip_command` in rounded arithmetic.  The vector
operations `new_command - command` and `command + k * u` of the matrix library work
component by component. -/
def clip_group_fl (fl : α → α) (m : Mixer α) (desired_command : Vector6 α)
    (command : Vector6 α) (axes : Vector6 Bool) : Vector6 α :=
  let new_command : Vector6 α :=
    Vector6.ofFn fun j => if axes.get j then desired_command.get j else command.get j
  let u : Vector6 α := Vector6.ofFn fun j => fl (new_command.get j - command.get j)
  (List.range m.rotor_count).foldl
    (fun nc ii => clip_rotor_fl fl m.out_min m.out_max command u nc (m.rotors ii)) new_command

/-- The method `clip_command` in rounded arithmetic. -/
def clip_command_fl (fl : α → α) (m : Mixer α) (desired_command : Vector6 α) : Vector6 α :=
  prioritary_axes.foldl (clip_group_fl fl m desired_command) ⟨0, 0, 0, 0, 0, 0⟩

/-- The thrust model inversion of `mix` in rounded arithmetic. -/
def thrust_inversion_fl (fl sqrtf : α → α) (thrust_factor o : α) : α :=
  if thrust_factor > 0 then
    fl (fl (-(fl (1 - thrust_factor)) / fl (2 * thrust_factor))
      + sqrtf (fl (fl (fl (fl (1 - thrust_factor) * fl (1 - thrust_factor))
            / fl (fl (4 * thrust_factor) * thrust_factor))
          + (if o < 0 then 0 else fl (o / thrust_factor)))))
  else o

/-- The body of the first rotor loop of `mix` in rounded arithmetic. -/
def mix_rotor_fl (fl sqrtf : α → α) (m : Mixer α) (command : Vector6 α) (i : Nat) : α :=
  constrain (thrust_inversion_fl fl sqrtf m.thrust_factor (dot_fl fl command (m.rotors i)))
    m.out_min m.out_max

/-- The body of the second rotor loop of `mix` up to the slew limiter, in rounded
arithmetic.  The literals `0.99f` and `0.01f` are `fl (99 / 100)` and `fl (1 / 100)`. -/
def limit_output_fl (fl : α → α) (out_min delta_out_max : α) (out : α) (prev : Option α) :
    α × Bool × Bool :=
  let clipping_high : Bool := decide (out > fl (99 / 100))
  let clipping_low : Bool := !clipping_high && decide (out < fl (out_min + fl (1 / 100)))
  if delta_out_max > 0 then
    match prev with
    | none => (out, clipping_high, clipping_low)
    | some p =>
      let delta_out := fl (out - p)
      if delta_out > delta_out_max then (fl (p + delta_out_max), true, clipping_low)
      else if delta_out < -delta_out_max then (fl (p - delta_out_max), clipping_high, true)
      else (out, clipping_high, clipping_low)
  else (out, clipping_high, clipping_low)

/-- The body of the second rotor loop of `mix` for rotor `i`, in rounded arithmetic. -/
def slew_rotor_fl (fl : α → α) (st : (Nat → α) × Mixer α) (i : Nat) : (Nat → α) × Mixer α :=
  let r := limit_output_fl fl st.2.out_min st.2.delta_out_max (st.1 i) (st.2.outputs_prev i)
  let m1 : Mixer α := { st.2 with outputs_prev := Function.update st.2.outputs_prev i (some r.1) }
  (Function.update st.1 i r.1, update_saturation_status m1 i r.2.1 r.2.2)

/-- The method `mix` in rounded arithmetic: `fl` rounds the exact result of each
operation, `sqrtf` is the square root. -/
def mix_fl (fl sqrtf : α → α) (m : Mixer α) (control : Fin 6 → α) (outputs : Nat → α)
    (space : Nat) : MixResult α :=
  let raw_command := get_command_fl fl m control
  let command : Vector6 α :=
    Vector6.ofFn fun j => if !m.controlled_axes.get j then 0 else raw_command.get j
  let command := clip_command_fl fl m command
  let outputs := (List.range m.rotor_count).foldl
    (fun out i => Function.update out i (mix_rotor_fl fl sqrtf m command i)) outputs
  let m1 : Mixer α :=
    { m with saturation_status :=
        { SaturationStatus.zero with
          x_thrust_valid := m.controlled_axes.get 3
          y_thrust_valid := m.controlled_axes.get 4
          z_thrust_valid := m.controlled_axes.get 5 } }
  let st := (List.range m.rotor_count).foldl (slew_rotor_fl fl) (outputs, m1)
  { count := m.rotor_count
    outputs := st.1
    mixer := { st.2 with delta_out_max := 0 } }

/-- The command that `mix` hands to the rotor loops, in rounded arithmetic. -/
def mix_command_fl (fl : α → α) (m : Mixer α) (control : Fin 6 → α) : Vector6 α :=
  clip_command_fl fl m
    (Vector6.ofFn fun j =>
      if !m.controlled_axes.get j then 0 else (get_command_fl fl m control).get j)

/-- The limited output and the two clipping flags of rotor `i` in a call of `mix`, in
rounded arithmetic. -/
def mix_limit_fl (fl sqrtf : α → α) (m : Mixer α) (control : Fin 6 → α) (i : Nat) :
    α × Bool × Bool :=
  limit_output_fl fl m.out_min m.delta_out_max
    (mix_rotor_fl fl sqrtf m (mix_command_fl fl m control) i) (m.outputs_prev i)

/-- Rounding leaves one pull-back of `clip_command` towards the bound `bound` untouched:
the scalar product `u * b`, the outcome of the test against `1e-6f`, the factor `k` and
the components of `command + k * u` that the code computes are the exact ones. -/
def step_rounding_free (fl : α → α) (bound : α) (command u b : Vector6 α) : Prop :=
  dot_fl fl u b = dot u b ∧
  (fl (1 / 1000000) < |dot u b| ↔ 1 / 1000000 < |dot u b|) ∧
  (1 / 1000000 < |dot u b| →
    dot_fl fl command b = dot command b ∧
    fl (fl (bound - dot command b) / dot u b) = (bound - dot command b) / dot u b ∧
    ((bound - dot command b) / dot u b ≥ 0 ∧ (bound - dot command b) / dot u b ≤ 1 →
      (Vector6.ofFn fun j =>
          fl (command.get j + fl ((bound - dot command b) / dot u b * u.get j)))
        = Vector6.ofFn fun j => command.get j + (bound - dot command b) / dot u b * u.get j))

/-- Rounding leaves the body of the rotor loop of `clip_command` untouched for the rotor
with scale `b`: the rotor output `new_command * b` that the code computes is the exact one,
and so is the pull-back when the rotor is saturated. -/
def clip_rotor_rounding_free (fl : α → α) (out_min out_max : α) (command u : Vector6 α)
    (new_command : Vector6 α) (b : Vector6 α) : Prop :=
  dot_fl fl new_command b = dot new_command b ∧
  (dot new_command b > out_max → step_rounding_free fl out_max command u b) ∧
  (¬ dot new_command b > out_max → dot new_command b < out_min →
    step_rounding_free fl out_min command u b)

/-- Rounding leaves one pass of the priority loop of `clip_command` untouched: the
components of `u = new_command - command` are exact, and the body of the rotor loop is
untouched for every rotor, at the value that `new_command` has when the loop reaches it. -/
def clip_group_rounding_free (fl : α → α) (m : Mixer α) (desired_command : Vector6 α)
    (command : Vector6 α) (axes : Vector6 Bool) : Prop :=
  (Vector6.ofFn fun j =>
      fl ((if axes.get j then desired_command.get j else command.get j) - command.get j))
    = (Vector6.ofFn fun j =>
      (if axes.get j then desired_command.get j else command.get j) - command.get j) ∧
  ∀ n, n < m.rotor_count →
    clip_rotor_rounding_free fl m.out_min m.out_max command
      (Vector6.ofFn fun j =>
        (if axes.get j then desired_command.get j else command.get j) - command.get j)
      ((List.range n).foldl
        (fun nc ii => clip_rotor m.out_min m.out_max command
          (Vector6.ofFn fun j =>
            (if axes.get j then desired_command.get j else command.get j) - command.get j)
          nc (m.rotors ii))
        (Vector6.ofFn fun j => if axes.get j then desired_command.get j else command.get j))
      (m.rotors n)

/-- No operation of the run of `clip_command` on `desired_command` is touched by rounding:
each of the four passes of the priority loop is untouched, at the baseline that it
starts from. -/
def clip_command_rounding_free (fl : α → α) (m : Mixer α) (desired_command : Vector6 α) :
    Prop :=
  clip_group_rounding_free fl m desired_command ⟨0, 0, 0, 0, 0, 0⟩
    ⟨false, false, false, false, false, true⟩ ∧
  clip_group_rounding_free fl m desired_command (clip_upto m desired_command 0)
    ⟨true, true, false, false, false, false⟩ ∧
  clip_group_rounding_free fl m desired_command (clip_upto m desired_command 1)
    ⟨false, false, true, false, false, false⟩ ∧
  clip_group_rounding_free fl m desired_command (clip_upto m desired_command 2)
    ⟨false, false, false, true, true, false⟩

/-- A geometry of one rotor that delivers z thrust only. -/
def single_rotor : Nat → Vector6 ℚ := fun _ => ⟨0, 0, 0, 0, 0, 1⟩

/-- The mixer constructed on `single_rotor` with unit axis scales and idle speed 0.5,
after `set_delta_out_max(0.1)`. -/
def idle_half_mixer : Mixer ℚ :=
  { MultirotorMixer6dof 1 single_rotor 1 1 1 1 1 1 (1 / 2) with delta_out_max := 1 / 10 }

/-- A mixer on `single_rotor` with no idle speed, previous output 0.5, slew limit 0.1 and
thrust factor 0.5. -/
def slew_mixer : Mixer ℚ :=
  { MultirotorMixer6dof 1 single_rotor 1 1 1 1 1 1 0 with
    delta_out_max := 1 / 10
    thrust_factor := 1 / 2
    outputs_prev := fun _ => some (1 / 2) }

/-- The mixer constructed with no idle speed on two rotors of z scale 1 and of roll
scales 1 and -1. -/
def roll_mixer : Mixer ℚ :=
  MultirotorMixer6dof 2 (fun i => if i = 0 then ⟨1, 0, 0, 0, 0, 1⟩ else ⟨-1, 0, 0, 0, 0, 1⟩)
    1 1 1 1 1 1 0

/-- The mixer constructed with idle speed 0.1 on a quadrotor: z scale 1 on every rotor,
roll, pitch and yaw scales 1 or -1. -/
def quad_mixer : Mixer ℚ :=
  MultirotorMixer6dof 4
    (fun i => if i = 0 then ⟨-1, 1, 1, 0, 0, 1⟩ else if i = 1 then ⟨1, -1, 1, 0, 0, 1⟩
      else if i = 2 then ⟨1, 1, -1, 0, 0, 1⟩ else ⟨-1, -1, -1, 0, 0, 1⟩)
    1 1 1 1 1 1 (1 / 10)

/-- The mixer constructed on `single_rotor` with no idle speed. -/
def plain_mixer : Mixer ℚ :=
  MultirotorMixer6dof 1 single_rotor 1 1 1 1 1 1 0

/-- The mixer constructed on `single_rotor` with idle speed 0.25, after
`set_thrust_factor(0.5)`. -/
def thrust_mixer : Mixer ℚ :=
  { MultirotorMixer6dof 1 single_rotor 1 1 1 1 1 1 (1 / 4) with thrust_factor := 1 / 2 }

/-- A mixer on `single_rotor` with no idle speed and previous output 0.5, after
`set_delta_out_max(0.1f)`: the slew limit is the binary32 value nearest to 0.1. -/
def armed_mixer : Mixer ℚ :=
  { MultirotorMixer6dof 1 single_rotor 1 1 1 1 1 1 0 with
    delta_out_max := 13421773 / 134217728
    outputs_prev := fun _ => some (1 / 2) }

/-- The mixer constructed on `single_rotor` with no idle speed, after
`set_delta_out_max(0.125f)`. -/
def fresh_armed_mixer : Mixer ℚ :=
  { MultirotorMixer6dof 1 single_rotor 1 1 1 1 1 1 0 with delta_out_max := 1 / 8 }

/-- The mixer constructed on `single_rotor` with no idle speed, after
`set_thrust_factor(0.01f)`: the thrust factor is the binary32 value nearest to 0.01. -/
def thin_thrust_mixer : Mixer ℚ :=
  { MultirotorMixer6dof 1 single_rotor 1 1 1 1 1 1 0 with thrust_factor := 5368709 / 536870912 }

end Defs

/-! ## Loops -/

section Loops

variable {α : Type} [LinearOrderedField α]

theorem foldl_update_range {β : Type} (f : Nat → β) (out : Nat → β) (n : Nat) :
    (List.range n).foldl (fun o i => Function.update o i (f i)) out
      = fun i => if i < n then f i else out i := by
  induction n with
  | zero => simp
  | succ n ih =>
    rw [List.range_succ, List.foldl_append, ih]
    funext i
    simp only [List.foldl_cons, List.foldl_nil, Function.update_apply]
    by_cases h : i = n
    · subst h; simp
    · have : i < n + 1 ↔ i < n := by omega
      simp [h, this]

theorem foldl_slew_rotor (out : Nat → α) (m : Mixer α) (n : Nat) :
    (List.range n).foldl slew_rotor (out, m)
      = (fun i => if i < n then
            (limit_output m.out_min m.delta_out_max (out i) (m.outputs_prev i)).1 else out i,
         { m with
           outputs_prev := fun i => if i < n then
             some (limit_output m.out_min m.delta_out_max (out i) (m.outputs_prev i)).1
             else m.outputs_prev i
           saturation_status := status_after m.rotors
             (fun i => (limit_output m.out_min m.delta_out_max (out i) (m.outputs_prev i)).2)
             m.saturation_status n }) := by
  induction n with
  | zero => simp [status_after]
  | succ n ih =>
    rw [List.range_succ, List.foldl_append, ih]
    simp only [List.foldl_cons, List.foldl_nil, slew_rotor, update_saturation_status,
      lt_irrefl, if_false, status_after, List.range_succ, List.foldl_append]
    refine Prod.ext ?_ ?_
    · funext i
      simp only [Function.update_apply]
      by_cases h : i = n
      · subst h; simp
      · have : i < n + 1 ↔ i < n := by omega
        simp [h, this]
    · simp only [Mixer.mk.injEq, and_true, true_and]
      funext i
      simp only [Function.update_apply]
      by_cases h : i = n
      · subst h; simp
      · have : i < n + 1 ↔ i < n := by omega
        simp [h, this]

theorem mix_count (sqrtf : α → α) (m : Mixer α) (control : Fin 6 → α) (outputs : Nat → α)
    (space : Nat) : (mix sqrtf m control outputs space).count = m.rotor_count := rfl

theorem mix_outputs (sqrtf : α → α) (m : Mixer α) (control : Fin 6 → α) (outputs : Nat → α)
    (space : Nat) :
    (mix sqrtf m control outputs space).outputs
      = fun i => if i < m.rotor_count then (mix_limit sqrtf m control i).1 else outputs i := by
  simp only [mix, foldl_update_range, foldl_slew_rotor, mix_limit, mix_command]
  funext i
  by_cases h : i < m.rotor_count <;> simp [h]

theorem mix_outputs_lt (sqrtf : α → α) (m : Mixer α) (control : Fin 6 → α) (outputs : Nat → α)
    (space : Nat) {i : Nat} (hi : i < m.rotor_count) :
    (mix sqrtf m control outputs space).outputs i = (mix_limit sqrtf m control i).1 := by
  rw [mix_outputs]; simp [hi]

theorem mix_status (sqrtf : α → α) (m : Mixer α) (control : Fin 6 → α) (outputs : Nat → α)
    (space : Nat) :
    (mix sqrtf m control outputs space).mixer.saturation_status
      = status_after m.rotors (fun i => (mix_limit sqrtf m control i).2) (status_start m)
          m.rotor_count := by
  simp only [mix, foldl_update_range, foldl_slew_rotor, mix_limit, mix_command, status_after,
    status_start]
  refine List.foldl_ext _ _ _ ?_
  intro st i hi
  have h : i < m.rotor_count := List.mem_range.mp hi
  simp [h]

theorem mix_outputs_prev (sqrtf : α → α) (m : Mixer α) (control : Fin 6 → α) (outputs : Nat → α)
    (space : Nat) :
    (mix sqrtf m control outputs space).mixer.outputs_prev
      = fun i => if i < m.rotor_count then some (mix_limit sqrtf m control i).1
          else m.outputs_prev i := by
  simp only [mix, foldl_update_range, foldl_slew_rotor, mix_limit, mix_command]
  funext i
  by_cases h : i < m.rotor_count <;> simp [h]

theorem mix_delta_out_max (sqrtf : α → α) (m : Mixer α) (control : Fin 6 → α)
    (outputs : Nat → α) (space : Nat) :
    (mix sqrtf m control outputs space).mixer.delta_out_max = 0 := rfl

/-- The mixer that `mix` leaves: only the previous-output memory, the status word and the
slew limit differ from the mixer on entry. -/
theorem mix_mixer (sqrtf : α → α) (m : Mixer α) (control : Fin 6 → α) (outputs : Nat → α)
    (space : Nat) :
    (mix sqrtf m control outputs space).mixer
      = { m with
          outputs_prev := fun i => if i < m.rotor_count then some (mix_limit sqrtf m control i).1
            else m.outputs_prev i
          saturation_status := status_after m.rotors (fun i => (mix_limit sqrtf m control i).2)
            (status_start m) m.rotor_count
          delta_out_max := 0 } := by
  have h1 := mix_outputs_prev sqrtf m control outputs space
  have h2 := mix_status sqrtf m control outputs space
  have h3 : (mix sqrtf m control outputs space).mixer.rotors = m.rotors := by
    simp only [mix, foldl_slew_rotor]
  cases hm : (mix sqrtf m control outputs space).mixer
  rw [hm] at h1 h2 h3
  simp only at h1 h2 h3
  subst h1 h2 h3
  simp only [mix, foldl_slew_rotor] at hm
  simp only [Mixer.mk.injEq] at hm ⊢
  tauto

end Loops

/-! ## Output transformer and slew limiter -/

section Outputs

variable {α : Type} [LinearOrderedField α]

theorem constrain_bounds (val lo hi : α) (h : lo ≤ hi) :
    lo ≤ constrain val lo hi ∧ constrain val lo hi ≤ hi := by
  unfold constrain
  split_ifs with h1 h2
  · exact ⟨le_refl _, h⟩
  · exact ⟨h, le_refl _⟩
  · exact ⟨not_lt.mp h1, not_lt.mp h2⟩

theorem mix_rotor_bounds (sqrtf : α → α) (m : Mixer α) (command : Vector6 α) (i : Nat)
    (h : m.out_min ≤ m.out_max) :
    m.out_min ≤ mix_rotor sqrtf m command i ∧ mix_rotor sqrtf m command i ≤ m.out_max :=
  constrain_bounds _ _ _ h

theorem limit_output_of_not_armed (lo d out : α) (prev : Option α) (hd : d ≤ 0) :
    (limit_output lo d out prev).1 = out := by
  simp [limit_output, not_lt.mpr hd]

theorem limit_output_none (lo d out : α) : (limit_output lo d out none).1 = out := by
  unfold limit_output
  split_ifs <;> rfl

theorem limit_output_fst_some (lo d out p : α) :
    (limit_output lo d out (some p)).1
      = if d > 0 then (if out - p > d then p + d else if out - p < -d then p - d else out)
        else out := by
  by_cases h0 : d > 0 <;> by_cases h1 : out - p > d <;> by_cases h2 : out - p < -d <;>
    simp [limit_output, h0, h1, h2]

theorem limit_output_bounds (lo hi d out p : α) (ho : lo ≤ out ∧ out ≤ hi)
    (hp : lo ≤ p ∧ p ≤ hi) :
    lo ≤ (limit_output lo d out (some p)).1 ∧ (limit_output lo d out (some p)).1 ≤ hi := by
  rw [limit_output_fst_some]
  split_ifs with h0 h1 h2
  · constructor <;> linarith [ho.1, ho.2, hp.1, hp.2]
  · constructor <;> linarith [ho.1, ho.2, hp.1, hp.2]
  · exact ho
  · exact ho

theorem get_command_get_congr (m : Mixer α) (control control' : Fin 6 → α) (j : Fin 6)
    (h : control j = control' j) :
    (get_command m control).get j = (get_command m control').get j := by
  fin_cases j <;> simp only [get_command, Vector6.get] <;> simp_all

theorem Vector6.ofFn_congr {β : Type} (f g : Fin 6 → β) (h : ∀ j, f j = g j) :
    Vector6.ofFn f = Vector6.ofFn g := by
  simp [Vector6.ofFn, h]

theorem mix_command_congr (m : Mixer α) (control control' : Fin 6 → α) (j : Fin 6)
    (hj : m.controlled_axes.get j = false) (hc : ∀ k, k ≠ j → control k = control' k) :
    mix_command m control = mix_command m control' := by
  unfold mix_command
  congr 1
  apply Vector6.ofFn_congr
  intro k
  by_cases hk : k = j
  · subst hk; simp [hj]
  · rw [get_command_get_congr m control control' k (hc k hk)]

theorem dot_zero_left (b : Vector6 α) : dot ⟨0, 0, 0, 0, 0, 0⟩ b = 0 := by
  simp [dot]

theorem clip_rotor_of_dot_u_zero (lo hi : α) (c u nc b : Vector6 α) (h : dot u b = 0) :
    clip_rotor lo hi c u nc b = nc := by
  norm_num [clip_rotor, h]

theorem clip_group_zero (m : Mixer α) (axes : Vector6 Bool) :
    clip_group m ⟨0, 0, 0, 0, 0, 0⟩ ⟨0, 0, 0, 0, 0, 0⟩ axes = ⟨0, 0, 0, 0, 0, 0⟩ := by
  have hnew : (Vector6.ofFn fun j => if axes.get j = true
      then (⟨0, 0, 0, 0, 0, 0⟩ : Vector6 α).get j else (⟨0, 0, 0, 0, 0, 0⟩ : Vector6 α).get j)
      = ⟨0, 0, 0, 0, 0, 0⟩ := by
    simp [Vector6.ofFn, Vector6.get]
  have hu : (Vector6.ofFn fun j => (⟨0, 0, 0, 0, 0, 0⟩ : Vector6 α).get j
      - (⟨0, 0, 0, 0, 0, 0⟩ : Vector6 α).get j) = ⟨0, 0, 0, 0, 0, 0⟩ := by
    simp [Vector6.ofFn, Vector6.get]
  simp only [clip_group, hnew, hu]
  apply List.foldl_fixed'
  intro ii
  exact clip_rotor_of_dot_u_zero _ _ _ _ _ _ (dot_zero_left _)

theorem clip_command_zero (m : Mixer α) :
    clip_command m ⟨0, 0, 0, 0, 0, 0⟩ = ⟨0, 0, 0, 0, 0, 0⟩ := by
  simp [clip_command, prioritary_axes, clip_group_zero]

theorem get_command_zero (m : Mixer α) (control : Fin 6 → α) (h : ∀ j, control j = 0) :
    get_command m control = ⟨0, 0, 0, 0, 0, 0⟩ := by
  norm_num [get_command, h, constrain]

theorem mix_command_zero (m : Mixer α) (control : Fin 6 → α) (h : ∀ j, control j = 0) :
    mix_command m control = ⟨0, 0, 0, 0, 0, 0⟩ := by
  have : (Vector6.ofFn fun j => if (!m.controlled_axes.get j) = true then (0 : α)
      else (get_command m control).get j) = ⟨0, 0, 0, 0, 0, 0⟩ := by
    simp [get_command_zero m control h, Vector6.ofFn, Vector6.get]
  rw [mix_command, this, clip_command_zero]

theorem thrust_inversion_zero (sqrtf : α → α) (hs : ∀ x, 0 ≤ x → sqrtf (x * x) = x)
    (f : α) (hf0 : 0 ≤ f) (hf1 : f < 1) : thrust_inversion sqrtf f 0 = 0 := by
  by_cases hf : f > 0
  · have hx : 0 ≤ (1 - f) / (2 * f) := div_nonneg (by linarith) (by linarith)
    have he : (1 - f) * (1 - f) / (4 * f * f) = (1 - f) / (2 * f) * ((1 - f) / (2 * f)) := by
      rw [div_mul_div_comm]
      congr 1
      ring
    simp only [thrust_inversion, if_pos hf, lt_irrefl, if_false, zero_div, add_zero]
    rw [he, hs _ hx]
    ring
  · simp only [thrust_inversion, if_neg hf]

theorem float_of_byte_zero : (float_of_byte 0 : Option α) = some 0 := by
  simp [float_of_byte]

theorem memset_float_of_abs_lt_one [FloorRing α] (c : α) (h1 : -1 < c) (h2 : c < 1) :
    memset_float c = some 0 := by
  have h : float_to_int c = 0 := by
    unfold float_to_int
    split_ifs with h0
    · exact Int.floor_eq_zero_iff.mpr ⟨h0, h2⟩
    · exact Int.ceil_eq_zero_iff.mpr ⟨h1, le_of_lt (not_le.mp h0)⟩
  rw [memset_float, h]
  exact float_of_byte_zero

/-- A rotor whose output is neither within 1% of a bound nor slew limited has both
clipping flags false. -/
theorem limit_output_quiet (lo d out : α) (prev : Option α) (h1 : lo + 1 / 100 ≤ out)
    (h2 : out ≤ 99 / 100) (h3 : d ≤ 0 ∨ ∀ p, prev = some p → |out - p| ≤ d) :
    (limit_output lo d out prev).2 = (false, false) := by
  have e1 : decide (out > 99 / 100) = false := decide_eq_false (not_lt.mpr h2)
  have e2 : decide (out < lo + 1 / 100) = false := decide_eq_false (not_lt.mpr h1)
  unfold limit_output
  simp only [e1, e2]
  cases prev with
  | none => simp only; split_ifs <;> rfl
  | some p =>
    simp only
    rcases h3 with hd | hp
    · rw [if_neg (not_lt.mpr hd)]; rfl
    · have habs := abs_le.mp (hp p rfl)
      have e3 : ¬ out - p > d := not_lt.mpr habs.2
      have e4 : ¬ out - p < -d := not_lt.mpr habs.1
      split_ifs <;> rfl

end Outputs

/-! ## Feasibility projector -/

section Projector

variable {α : Type} [LinearOrderedField α]

theorem Vector6.get_ofFn {β : Type} (f : Fin 6 → β) (j : Fin 6) :
    (Vector6.ofFn f).get j = f j := by
  fin_cases j <;> rfl

theorem Vector6.ext_get {β : Type} (v w : Vector6 β) (h : ∀ j, v.get j = w.get j) : v = w := by
  cases v; cases w
  have h0 := h 0; have h1 := h 1; have h2 := h 2
  have h3 := h 3; have h4 := h 4; have h5 := h 5
  simp only [Vector6.get] at h0 h1 h2 h3 h4 h5
  simp [h0, h1, h2, h3, h4, h5]

theorem get_along (c u : Vector6 α) (k : α) (j : Fin 6) :
    (along c u k).get j = c.get j + k * u.get j :=
  Vector6.get_ofFn _ j

theorem clip_rotor_of_feasible (lo hi : α) (c u nc b : Vector6 α)
    (h : lo ≤ dot nc b ∧ dot nc b ≤ hi) : clip_rotor lo hi c u nc b = nc := by
  simp [clip_rotor, not_lt.mpr h.1, not_lt.mpr h.2]

theorem foldl_clip_rotor_of_feasible (lo hi : α) (c u nc : Vector6 α) (rotors : Nat → Vector6 α)
    (is : List Nat) (h : ∀ i, i ∈ is → lo ≤ dot nc (rotors i) ∧ dot nc (rotors i) ≤ hi) :
    is.foldl (fun x ii => clip_rotor lo hi c u x (rotors ii)) nc = nc := by
  induction is with
  | nil => rfl
  | cons i is ih =>
    rw [List.foldl_cons, clip_rotor_of_feasible _ _ _ _ _ _ (h i (List.mem_cons_self i is))]
    exact ih (fun i' hi' => h i' (List.mem_cons_of_mem i hi'))

/-- A priority group whose candidate saturates no motor accepts the candidate as it is. -/
theorem clip_group_of_feasible (m : Mixer α) (d c r : Vector6 α) (axes : Vector6 Bool)
    (hnew : (Vector6.ofFn fun j => if axes.get j = true then d.get j else c.get j) = r)
    (hr : feasible m r) : clip_group m d c axes = r := by
  simp only [clip_group]
  rw [hnew]
  exact foldl_clip_rotor_of_feasible _ _ _ _ _ _ _ (fun i hi => hr i (List.mem_range.mp hi))

/-- A priority group whose desired values are already those of the baseline leaves the
baseline as it is. -/
theorem clip_group_of_no_step (m : Mixer α) (d c : Vector6 α) (axes : Vector6 Bool)
    (h : ∀ j, axes.get j = true → d.get j = c.get j) : clip_group m d c axes = c := by
  have hnew : (Vector6.ofFn fun j => if axes.get j = true then d.get j else c.get j) = c := by
    apply Vector6.ext_get
    intro j
    rw [Vector6.get_ofFn]
    by_cases hj : axes.get j = true
    · simp [hj, h j hj]
    · simp [hj]
  simp only [clip_group]
  rw [hnew]
  apply List.foldl_fixed'
  intro ii
  apply clip_rotor_of_dot_u_zero
  simp [dot, Vector6.ofFn, Vector6.get]

theorem clip_command_eq (m : Mixer α) (d : Vector6 α) :
    clip_command m d
      = clip_group m d (clip_group m d (clip_group m d (clip_group m d ⟨0, 0, 0, 0, 0, 0⟩
          ⟨false, false, false, false, false, true⟩)
          ⟨true, true, false, false, false, false⟩)
          ⟨false, false, true, false, false, false⟩)
          ⟨false, false, false, true, true, false⟩ := rfl

theorem priority_group_eq :
    priority_group 0 = 1 ∧ priority_group 1 = 1 ∧ priority_group 2 = 2 ∧
      priority_group 3 = 3 ∧ priority_group 4 = 3 ∧ priority_group 5 = 0 := by
  decide

/-- One rotor of the sweep keeps the candidate on the segment from the baseline: it is
`c + k * u` with `k` in [0, 1] before and after, whatever the bounds. -/
theorem clip_rotor_shape (lo hi : α) (c u nc b : Vector6 α)
    (h : ∃ k, 0 ≤ k ∧ k ≤ 1 ∧ nc = along c u k) :
    ∃ k, 0 ≤ k ∧ k ≤ 1 ∧ clip_rotor lo hi c u nc b = along c u k := by
  unfold clip_rotor
  simp only
  split_ifs with h1 h2 h3 h4 h5 h6
  · exact ⟨_, h3.1, h3.2, rfl⟩
  · exact h
  · exact h
  · exact ⟨_, h6.1, h6.2, rfl⟩
  · exact h
  · exact h
  · exact h

theorem foldl_clip_rotor_shape (lo hi : α) (c u : Vector6 α) (rotors : Nat → Vector6 α)
    (is : List Nat) (nc : Vector6 α) (h : ∃ k, 0 ≤ k ∧ k ≤ 1 ∧ nc = along c u k) :
    ∃ k, 0 ≤ k ∧ k ≤ 1 ∧
      is.foldl (fun x ii => clip_rotor lo hi c u x (rotors ii)) nc = along c u k := by
  induction is generalizing nc with
  | nil => exact h
  | cons i is ih =>
    rw [List.foldl_cons]
    exact ih _ (clip_rotor_shape lo hi c u nc (rotors i) h)

/-- One priority group, whatever the bounds and the baseline: the axes of the group move
from the baseline towards the desired values by a common factor `k` in [0, 1], the other
axes keep the value of the baseline. -/
theorem clip_group_shape (m : Mixer α) (d c : Vector6 α) (axes : Vector6 Bool) :
    ∃ k, 0 ≤ k ∧ k ≤ 1 ∧ ∀ j, (clip_group m d c axes).get j
      = if axes.get j = true then c.get j + k * (d.get j - c.get j) else c.get j := by
  have hnew : (Vector6.ofFn fun j => if axes.get j = true then d.get j else c.get j)
      = along c (Vector6.ofFn fun j =>
          (Vector6.ofFn fun j => if axes.get j = true then d.get j else c.get j).get j
            - c.get j) 1 := by
    apply Vector6.ext_get
    intro j
    simp only [get_along, Vector6.get_ofFn]
    ring
  obtain ⟨k, hk0, hk1, hk⟩ := foldl_clip_rotor_shape m.out_min m.out_max c
    (Vector6.ofFn fun j =>
      (Vector6.ofFn fun j => if axes.get j = true then d.get j else c.get j).get j - c.get j)
    m.rotors (List.range m.rotor_count)
    (Vector6.ofFn fun j => if axes.get j = true then d.get j else c.get j)
    ⟨1, zero_le_one, le_refl 1, hnew⟩
  refine ⟨k, hk0, hk1, fun j => ?_⟩
  simp only [clip_group]
  rw [hk]
  simp only [get_along, Vector6.get_ofFn]
  by_cases h : axes.get j = true
  · simp [h]
  · simp [h]

theorem clip_group_get_of_not_axes (m : Mixer α) (d c : Vector6 α) (axes : Vector6 Bool)
    (j : Fin 6) (h : axes.get j = false) : (clip_group m d c axes).get j = c.get j := by
  obtain ⟨k, _, _, hk⟩ := clip_group_shape m d c axes
  rw [hk j]
  simp [h]

theorem clip_group_congr (m : Mixer α) (d d' c : Vector6 α) (axes : Vector6 Bool)
    (h : ∀ j, axes.get j = true → d.get j = d'.get j) :
    clip_group m d c axes = clip_group m d' c axes := by
  have hnew : (Vector6.ofFn fun j => if axes.get j = true then d.get j else c.get j)
      = Vector6.ofFn fun j => if axes.get j = true then d'.get j else c.get j := by
    apply Vector6.ofFn_congr
    intro j
    by_cases hj : axes.get j = true
    · simp [hj, h j hj]
    · simp [hj]
  simp only [clip_group]
  rw [hnew]

/-- The baseline after the groups `0 .. g` depends on the desired command through the
axes of these groups only. -/
theorem clip_upto_congr (m : Mixer α) (d d' : Vector6 α) (g : Nat)
    (h : ∀ j, priority_group j ≤ g → d.get j = d'.get j) :
    clip_upto m d g = clip_upto m d' g := by
  obtain ⟨p0, p1, p2, p3, p4, p5⟩ := priority_group_eq
  rcases g with _ | _ | _ | g
  · simp only [clip_upto, prioritary_axes, List.take, List.take_nil, List.foldl]
    exact clip_group_congr m d d' _ _ (fun j hj => h j (by
      fin_cases j <;> simp_all [Vector6.get]))
  · simp only [clip_upto, prioritary_axes, List.take, List.take_nil, List.foldl]
    rw [clip_group_congr m d d' ⟨0, 0, 0, 0, 0, 0⟩ ⟨false, false, false, false, false, true⟩
      (fun j hj => h j (by fin_cases j <;> simp_all [Vector6.get]))]
    exact clip_group_congr m d d' _ _ (fun j hj => h j (by
      fin_cases j <;> simp_all [Vector6.get]))
  · simp only [clip_upto, prioritary_axes, List.take, List.take_nil, List.foldl]
    rw [clip_group_congr m d d' ⟨0, 0, 0, 0, 0, 0⟩ ⟨false, false, false, false, false, true⟩
      (fun j hj => h j (by fin_cases j <;> simp_all [Vector6.get]))]
    rw [clip_group_congr m d d' _ ⟨true, true, false, false, false, false⟩
      (fun j hj => h j (by fin_cases j <;> simp_all [Vector6.get]))]
    exact clip_group_congr m d d' _ _ (fun j hj => h j (by
      fin_cases j <;> simp_all [Vector6.get]))
  · simp only [clip_upto, prioritary_axes, List.take, List.take_nil, List.foldl]
    rw [clip_group_congr m d d' ⟨0, 0, 0, 0, 0, 0⟩ ⟨false, false, false, false, false, true⟩
      (fun j hj => h j (by fin_cases j <;> simp_all [Vector6.get]))]
    rw [clip_group_congr m d d' _ ⟨true, true, false, false, false, false⟩
      (fun j hj => h j (by fin_cases j <;> simp_all [Vector6.get]))]
    rw [clip_group_congr m d d' _ ⟨false, false, true, false, false, false⟩
      (fun j hj => h j (by fin_cases j <;> simp_all [Vector6.get]))]
    exact clip_group_congr m d d' _ _ (fun j hj => h j (by
      fin_cases j <;> simp_all [Vector6.get]))

/-- The component `j` of the result is decided when the group of `j` has run: later
groups leave it alone. -/
theorem clip_command_get_eq_upto (m : Mixer α) (d : Vector6 α) (j : Fin 6) :
    (clip_command m d).get j = (clip_upto m d (priority_group j)).get j := by
  obtain ⟨p0, p1, p2, p3, p4, p5⟩ := priority_group_eq
  rw [clip_command_eq]
  fin_cases j
  · show (clip_group m d _ _).get 0 = (clip_upto m d (priority_group 0)).get 0
    simp only [p0, clip_upto, prioritary_axes, List.take, List.take_nil, List.foldl]
    rw [clip_group_get_of_not_axes m d _ ⟨false, false, false, true, true, false⟩ 0 rfl, clip_group_get_of_not_axes m d _ ⟨false, false, true, false, false, false⟩ 0 rfl]
  · show (clip_group m d _ _).get 1 = (clip_upto m d (priority_group 1)).get 1
    simp only [p1, clip_upto, prioritary_axes, List.take, List.take_nil, List.foldl]
    rw [clip_group_get_of_not_axes m d _ ⟨false, false, false, true, true, false⟩ 1 rfl, clip_group_get_of_not_axes m d _ ⟨false, false, true, false, false, false⟩ 1 rfl]
  · show (clip_group m d _ _).get 2 = (clip_upto m d (priority_group 2)).get 2
    simp only [p2, clip_upto, prioritary_axes, List.take, List.take_nil, List.foldl]
    rw [clip_group_get_of_not_axes m d _ ⟨false, false, false, true, true, false⟩ 2 rfl]
  · show (clip_group m d _ _).get 3 = (clip_upto m d (priority_group 3)).get 3
    simp only [p3, clip_upto, prioritary_axes, List.take, List.take_nil, List.foldl]
  · show (clip_group m d _ _).get 4 = (clip_upto m d (priority_group 4)).get 4
    simp only [p4, clip_upto, prioritary_axes, List.take, List.take_nil, List.foldl]
  · show (clip_group m d _ _).get 5 = (clip_upto m d (priority_group 5)).get 5
    simp only [p5, clip_upto, prioritary_axes, List.take, List.take_nil, List.foldl]
    rw [clip_group_get_of_not_axes m d _ ⟨false, false, false, true, true, false⟩ 5 rfl, clip_group_get_of_not_axes m d _ ⟨false, false, true, false, false, false⟩ 5 rfl,
      clip_group_get_of_not_axes m d _ ⟨true, true, false, false, false, false⟩ 5 rfl]

end Projector

/-! ## Saturation reporter -/

section Saturation

variable {α : Type} [LinearOrderedField α]

theorem get_pos_set_pos (st : SaturationStatus) (k j : Fin 6) :
    get_pos (set_pos st k) j = true ↔ get_pos st j = true ∨ k = j := by
  cases st; fin_cases k <;> fin_cases j <;> simp [set_pos, get_pos]

theorem get_pos_set_neg (st : SaturationStatus) (k j : Fin 6) :
    get_pos (set_neg st k) j = get_pos st j := by
  cases st; fin_cases k <;> fin_cases j <;> simp [set_neg, get_pos]

theorem get_neg_set_neg (st : SaturationStatus) (k j : Fin 6) :
    get_neg (set_neg st k) j = true ↔ get_neg st j = true ∨ k = j := by
  cases st; fin_cases k <;> fin_cases j <;> simp [set_neg, get_neg]

theorem get_neg_set_pos (st : SaturationStatus) (k j : Fin 6) :
    get_neg (set_pos st k) j = get_neg st j := by
  cases st; fin_cases k <;> fin_cases j <;> simp [set_pos, get_neg]

theorem get_pos_mark_high (s : Vector6 α) (st : SaturationStatus) (k j : Fin 6) :
    get_pos (mark_high s st k) j = true ↔ get_pos st j = true ∨ (k = j ∧ 0 < s.get k) := by
  unfold mark_high
  split_ifs with h1 h2
  · simp [get_pos_set_pos, h1]
  · simp [get_pos_set_neg, h1]
  · simp [h1]

theorem get_neg_mark_high (s : Vector6 α) (st : SaturationStatus) (k j : Fin 6) :
    get_neg (mark_high s st k) j = true ↔ get_neg st j = true ∨ (k = j ∧ s.get k < 0) := by
  unfold mark_high
  split_ifs with h1 h2
  · simp [get_neg_set_pos, not_lt.mpr (le_of_lt h1)]
  · simp [get_neg_set_neg, h2]
  · simp [h2]

theorem get_pos_mark_low (s : Vector6 α) (st : SaturationStatus) (k j : Fin 6) :
    get_pos (mark_low s st k) j = true ↔ get_pos st j = true ∨ (k = j ∧ s.get k < 0) := by
  unfold mark_low
  split_ifs with h1 h2
  · simp [get_pos_set_neg, not_lt.mpr (le_of_lt h1)]
  · simp [get_pos_set_pos, h2]
  · simp [h2]

theorem get_neg_mark_low (s : Vector6 α) (st : SaturationStatus) (k j : Fin 6) :
    get_neg (mark_low s st k) j = true ↔ get_neg st j = true ∨ (k = j ∧ 0 < s.get k) := by
  unfold mark_low
  split_ifs with h1 h2
  · simp [get_neg_set_neg, h1]
  · simp [get_neg_set_pos, h1]
  · simp [h1]

theorem get_pos_foldl_mark_high (s : Vector6 α) (st : SaturationStatus) (j : Fin 6) :
    get_pos ([0, 1, 2, 3, 4, 5].foldl (mark_high s) st) j = true
      ↔ get_pos st j = true ∨ 0 < s.get j := by
  simp only [List.foldl_cons, List.foldl_nil, get_pos_mark_high]
  fin_cases j <;> simp

theorem get_neg_foldl_mark_high (s : Vector6 α) (st : SaturationStatus) (j : Fin 6) :
    get_neg ([0, 1, 2, 3, 4, 5].foldl (mark_high s) st) j = true
      ↔ get_neg st j = true ∨ s.get j < 0 := by
  simp only [List.foldl_cons, List.foldl_nil, get_neg_mark_high]
  fin_cases j <;> simp

theorem get_pos_foldl_mark_low (s : Vector6 α) (st : SaturationStatus) (j : Fin 6) :
    get_pos ([0, 1, 2, 3, 4, 5].foldl (mark_low s) st) j = true
      ↔ get_pos st j = true ∨ s.get j < 0 := by
  simp only [List.foldl_cons, List.foldl_nil, get_pos_mark_low]
  fin_cases j <;> simp

theorem get_neg_foldl_mark_low (s : Vector6 α) (st : SaturationStatus) (j : Fin 6) :
    get_neg ([0, 1, 2, 3, 4, 5].foldl (mark_low s) st) j = true
      ↔ get_neg st j = true ∨ 0 < s.get j := by
  simp only [List.foldl_cons, List.foldl_nil, get_neg_mark_low]
  fin_cases j <;> simp

theorem get_pos_set_valid (st : SaturationStatus) (j : Fin 6) :
    get_pos { st with valid := true } j = get_pos st j := by
  fin_cases j <;> rfl

theorem get_neg_set_valid (st : SaturationStatus) (j : Fin 6) :
    get_neg { st with valid := true } j = get_neg st j := by
  fin_cases j <;> rfl

theorem get_pos_update_flags (s : Vector6 α) (st : SaturationStatus) (high low : Bool)
    (j : Fin 6) :
    get_pos (update_flags s st high low) j = true
      ↔ get_pos st j = true ∨ (high = true ∧ 0 < s.get j) ∨ (low = true ∧ s.get j < 0) := by
  unfold update_flags
  rw [get_pos_set_valid]
  cases high <;> cases low <;>
    simp only [Bool.false_eq_true, if_false, if_true, get_pos_foldl_mark_high,
      get_pos_foldl_mark_low, false_and, true_and, or_false, false_or, or_assoc]

theorem get_neg_update_flags (s : Vector6 α) (st : SaturationStatus) (high low : Bool)
    (j : Fin 6) :
    get_neg (update_flags s st high low) j = true
      ↔ get_neg st j = true ∨ (high = true ∧ s.get j < 0) ∨ (low = true ∧ 0 < s.get j) := by
  unfold update_flags
  rw [get_neg_set_valid]
  cases high <;> cases low <;>
    simp only [Bool.false_eq_true, if_false, if_true, get_neg_foldl_mark_high,
      get_neg_foldl_mark_low, false_and, true_and, or_false, false_or, or_assoc]

theorem update_flags_valid (s : Vector6 α) (st : SaturationStatus) (high low : Bool) :
    (update_flags s st high low).valid = true := rfl

theorem status_after_succ (rotors : Nat → Vector6 α) (flags : Nat → Bool × Bool)
    (st : SaturationStatus) (n : Nat) :
    status_after rotors flags st (n + 1)
      = update_flags (rotors n) (status_after rotors flags st n) (flags n).1 (flags n).2 := by
  simp [status_after, List.range_succ]

theorem get_pos_status_after (rotors : Nat → Vector6 α) (flags : Nat → Bool × Bool)
    (st : SaturationStatus) (n : Nat) (j : Fin 6) :
    get_pos (status_after rotors flags st n) j = true
      ↔ get_pos st j = true ∨ ∃ i, i < n ∧
          (((flags i).1 = true ∧ 0 < (rotors i).get j)
            ∨ ((flags i).2 = true ∧ (rotors i).get j < 0)) := by
  induction n with
  | zero => simp [status_after]
  | succ n ih =>
    rw [status_after_succ, get_pos_update_flags, ih]
    constructor
    · rintro ((h | ⟨i, hi, h⟩) | h)
      · exact Or.inl h
      · exact Or.inr ⟨i, Nat.lt_succ_of_lt hi, h⟩
      · exact Or.inr ⟨n, Nat.lt_succ_self n, h⟩
    · rintro (h | ⟨i, hi, h⟩)
      · exact Or.inl (Or.inl h)
      · rcases Nat.lt_succ_iff_lt_or_eq.mp hi with hlt | heq
        · exact Or.inl (Or.inr ⟨i, hlt, h⟩)
        · subst heq; exact Or.inr h

theorem get_neg_status_after (rotors : Nat → Vector6 α) (flags : Nat → Bool × Bool)
    (st : SaturationStatus) (n : Nat) (j : Fin 6) :
    get_neg (status_after rotors flags st n) j = true
      ↔ get_neg st j = true ∨ ∃ i, i < n ∧
          (((flags i).1 = true ∧ (rotors i).get j < 0)
            ∨ ((flags i).2 = true ∧ 0 < (rotors i).get j)) := by
  induction n with
  | zero => simp [status_after]
  | succ n ih =>
    rw [status_after_succ, get_neg_update_flags, ih]
    constructor
    · rintro ((h | ⟨i, hi, h⟩) | h)
      · exact Or.inl h
      · exact Or.inr ⟨i, Nat.lt_succ_of_lt hi, h⟩
      · exact Or.inr ⟨n, Nat.lt_succ_self n, h⟩
    · rintro (h | ⟨i, hi, h⟩)
      · exact Or.inl (Or.inl h)
      · rcases Nat.lt_succ_iff_lt_or_eq.mp hi with hlt | heq
        · exact Or.inl (Or.inr ⟨i, hlt, h⟩)
        · subst heq; exact Or.inr h

theorem get_pos_status_after_mono (rotors : Nat → Vector6 α) (flags : Nat → Bool × Bool)
    (st : SaturationStatus) (n n' : Nat) (h : n ≤ n') (j : Fin 6)
    (hp : get_pos (status_after rotors flags st n) j = true) :
    get_pos (status_after rotors flags st n') j = true := by
  rw [get_pos_status_after] at hp ⊢
  rcases hp with h1 | ⟨i, hi, h2⟩
  · exact Or.inl h1
  · exact Or.inr ⟨i, lt_of_lt_of_le hi h, h2⟩

theorem get_neg_status_after_mono (rotors : Nat → Vector6 α) (flags : Nat → Bool × Bool)
    (st : SaturationStatus) (n n' : Nat) (h : n ≤ n') (j : Fin 6)
    (hp : get_neg (status_after rotors flags st n) j = true) :
    get_neg (status_after rotors flags st n') j = true := by
  rw [get_neg_status_after] at hp ⊢
  rcases hp with h1 | ⟨i, hi, h2⟩
  · exact Or.inl h1
  · exact Or.inr ⟨i, lt_of_lt_of_le hi h, h2⟩

theorem status_after_valid (rotors : Nat → Vector6 α) (flags : Nat → Bool × Bool)
    (st : SaturationStatus) (n : Nat) (hn : 0 < n) :
    (status_after rotors flags st n).valid = true := by
  cases n with
  | zero => exact absurd hn (lt_irrefl 0)
  | succ n => rw [status_after_succ]; rfl

theorem get_pos_status_start (m : Mixer α) (j : Fin 6) : get_pos (status_start m) j = false := by
  fin_cases j <;> rfl

theorem get_neg_status_start (m : Mixer α) (j : Fin 6) : get_neg (status_start m) j = false := by
  fin_cases j <;> rfl

theorem mark_high_thrust (s : Vector6 α) (st : SaturationStatus) (j : Fin 6) :
    (mark_high s st j).thrust_pos = st.thrust_pos ∧
      (mark_high s st j).thrust_neg = st.thrust_neg := by
  unfold mark_high
  split_ifs <;> fin_cases j <;> exact ⟨rfl, rfl⟩

theorem mark_low_thrust (s : Vector6 α) (st : SaturationStatus) (j : Fin 6) :
    (mark_low s st j).thrust_pos = st.thrust_pos ∧
      (mark_low s st j).thrust_neg = st.thrust_neg := by
  unfold mark_low
  split_ifs <;> fin_cases j <;> exact ⟨rfl, rfl⟩

theorem update_flags_thrust (s : Vector6 α) (st : SaturationStatus) (high low : Bool) :
    (update_flags s st high low).thrust_pos = st.thrust_pos ∧
      (update_flags s st high low).thrust_neg = st.thrust_neg := by
  unfold update_flags
  cases high <;> cases low <;>
    simp only [Bool.false_eq_true, if_false, if_true, List.foldl_cons, List.foldl_nil,
      (mark_high_thrust s _ _).1, (mark_high_thrust s _ _).2, (mark_low_thrust s _ _).1,
      (mark_low_thrust s _ _).2, and_self]

theorem status_after_thrust (rotors : Nat → Vector6 α) (flags : Nat → Bool × Bool)
    (st : SaturationStatus) (n : Nat) :
    (status_after rotors flags st n).thrust_pos = st.thrust_pos ∧
      (status_after rotors flags st n).thrust_neg = st.thrust_neg := by
  induction n with
  | zero => exact ⟨rfl, rfl⟩
  | succ n ih =>
    rw [status_after_succ]
    exact ⟨(update_flags_thrust _ _ _ _).1.trans ih.1, (update_flags_thrust _ _ _ _).2.trans ih.2⟩

end Saturation

/-! ## Binary32 rounding -/

section Rounding

theorem round_ne_of_lt (x : ℚ) (n : ℤ) (h : |x - n| < 1 / 2) : round_ne x = n := by
  have hlt := abs_lt.mp h
  unfold round_ne
  by_cases hn : (n : ℚ) ≤ x
  · have hf : ⌊x⌋ = n := Int.floor_eq_iff.mpr ⟨hn, by linarith⟩
    rw [hf, if_pos (by linarith)]
  · have hf : ⌊x⌋ = n - 1 := Int.floor_eq_iff.mpr ⟨by push_cast; linarith, by push_cast; linarith⟩
    rw [hf]
    push_cast
    rw [if_neg (by linarith), if_pos (by linarith)]
    ring

theorem round_ne_of_even (x : ℚ) (n : ℤ) (h : |x - n| ≤ 1 / 2) (hn : n % 2 = 0) :
    round_ne x = n := by
  rcases lt_or_eq_of_le h with h1 | h1
  · exact round_ne_of_lt x n h1
  · unfold round_ne
    rcases abs_eq (by norm_num : (0 : ℚ) ≤ 1 / 2) |>.mp h1 with h2 | h2
    · have hf : ⌊x⌋ = n := Int.floor_eq_iff.mpr ⟨by linarith, by linarith⟩
      rw [hf, if_neg (by linarith), if_neg (by linarith), if_pos hn]
    · have hf : ⌊x⌋ = n - 1 :=
        Int.floor_eq_iff.mpr ⟨by push_cast; linarith, by push_cast; linarith⟩
      have hodd : ¬ (n - 1) % 2 = 0 := by omega
      rw [hf]
      push_cast
      rw [if_neg (by linarith), if_neg (by linarith), if_neg hodd]
      ring

theorem round_ne_error (x : ℚ) : |(round_ne x : ℚ) - x| ≤ 1 / 2 := by
  have h1 := Int.floor_le x
  have h2 := Int.lt_floor_add_one x
  unfold round_ne
  rw [abs_le]
  split_ifs with a b c
  · constructor <;> linarith
  · push_cast; constructor <;> linarith
  · constructor <;> linarith
  · push_cast; constructor <;> linarith

theorem int_log_eq (b : ℕ) (hb : 1 < b) (x : ℚ) (e : ℤ) (h1 : (b : ℚ) ^ e ≤ x)
    (h2 : x < (b : ℚ) ^ (e + 1)) : Int.log b x = e := by
  have hx : 0 < x := lt_of_lt_of_le (zpow_pos (by exact_mod_cast (by omega : 0 < b)) e) h1
  apply le_antisymm
  · have := (Int.lt_zpow_iff_log_lt hb hx).mp h2
    omega
  · exact (Int.zpow_le_iff_le_log hb hx).mp h1

theorem round32_zero : round32 0 = 0 := by
  simp [round32, round_ne]

/-- The certificate of one rounding: `x` lies in the binade of exponent `e` and `n` is the
integer nearest to `x` in units in the last place, the even one in a tie. -/
theorem round32_eq (x : ℚ) (e n : ℤ) (he : -126 ≤ e) (h1 : (2 : ℚ) ^ e ≤ |x|)
    (h2 : |x| < (2 : ℚ) ^ (e + 1))
    (h3 : |x / 2 ^ (e - 23) - n| < 1 / 2 ∨ (|x / 2 ^ (e - 23) - n| ≤ 1 / 2 ∧ n % 2 = 0)) :
    round32 x = n * 2 ^ (e - 23) := by
  have hl : Int.log 2 |x| = e := int_log_eq 2 (by norm_num) _ _ (by exact_mod_cast h1)
    (by exact_mod_cast h2)
  unfold round32
  rw [hl, max_eq_left he]
  rcases h3 with h3 | ⟨h3, h4⟩
  · rw [round_ne_of_lt _ _ h3]
  · rw [round_ne_of_even _ _ h3 h4]

/-- The error of one rounding: at most `2 ^ -24` relative to the exact value in the normal
range, at most `2 ^ -150` below it. -/
theorem round32_error (x : ℚ) : |round32 x - x| ≤ 1 / 2 ^ 24 * |x| + 1 / 2 ^ 150 := by
  rcases eq_or_ne x 0 with h0 | h0
  · subst h0
    rw [round32_zero]
    norm_num
  have hu : (0 : ℚ) < 2 ^ (max (Int.log 2 |x|) (-126) - 23) := zpow_pos (by norm_num) _
  have h1 : |round32 x - x|
      = |(round_ne (x / 2 ^ (max (Int.log 2 |x|) (-126) - 23)) : ℚ)
          - x / 2 ^ (max (Int.log 2 |x|) (-126) - 23)|
        * 2 ^ (max (Int.log 2 |x|) (-126) - 23) := by
    rw [← abs_of_pos hu, ← abs_mul, abs_of_pos hu, sub_mul, div_mul_cancel₀ _ (ne_of_gt hu)]
    rfl
  have h2 := round_ne_error (x / 2 ^ (max (Int.log 2 |x|) (-126) - 23))
  have h3 : |round32 x - x| ≤ 1 / 2 * 2 ^ (max (Int.log 2 |x|) (-126) - 23) := by
    rw [h1]
    exact mul_le_mul_of_nonneg_right h2 (le_of_lt hu)
  have h4 : (2 : ℚ) ^ (max (Int.log 2 |x|) (-126) - 23)
      ≤ 1 / 2 ^ 23 * |x| + 1 / 2 ^ 149 := by
    rcases le_total (Int.log 2 |x|) (-126) with h | h
    · rw [max_eq_right h]
      have : (2 : ℚ) ^ ((-126 : ℤ) - 23) = 1 / 2 ^ 149 := by norm_num [zpow_neg]
      rw [this]
      have := abs_nonneg x
      nlinarith
    · rw [max_eq_left h]
      have hx : 0 < |x| := abs_pos.mpr h0
      have hle := Int.zpow_log_le_self (by norm_num : 1 < 2) hx
      have : (2 : ℚ) ^ (Int.log 2 |x| - 23) = 2 ^ (Int.log 2 |x|) * (1 / 2 ^ 23) := by
        rw [zpow_sub₀ (by norm_num)]
        norm_num [div_eq_mul_inv]
      rw [this]
      push_cast at hle
      nlinarith
  calc |round32 x - x| ≤ 1 / 2 * 2 ^ (max (Int.log 2 |x|) (-126) - 23) := h3
    _ ≤ 1 / 2 * (1 / 2 ^ 23 * |x| + 1 / 2 ^ 149) := by
        apply mul_le_mul_of_nonneg_left h4 (by norm_num)
    _ = 1 / 2 ^ 24 * |x| + 1 / 2 ^ 150 := by ring

/-- The certificate of one square root: `x` lies in the binade pair of exponent `e` (so
its root lies in the binade of exponent `e`) and `m` is twice the root in units in the
last place, rounded down. -/
theorem sqrt32_eq (x : ℚ) (e : ℤ) (m : ℕ) (h1 : (4 : ℚ) ^ e ≤ x) (h2 : x < (4 : ℚ) ^ (e + 1))
    (h3 : ((m * m : ℕ) : ℚ) ≤ 4 * x / (2 ^ (e - 23) * 2 ^ (e - 23)))
    (h4 : 4 * x / (2 ^ (e - 23) * 2 ^ (e - 23)) < (((m + 1) * (m + 1) : ℕ) : ℚ)) :
    sqrt32 x = ((m + 1) / 2 : ℕ) * 2 ^ (e - 23) := by
  have hx : 0 < x := lt_of_lt_of_le (zpow_pos (by norm_num) e) h1
  have hl : Int.log 4 x = e := int_log_eq 4 (by norm_num) _ _ (by exact_mod_cast h1)
    (by exact_mod_cast h2)
  have hq : 0 ≤ 4 * x / (2 ^ (e - 23) * 2 ^ (e - 23)) := by positivity
  have hs : Nat.sqrt ⌊4 * x / (2 ^ (e - 23) * 2 ^ (e - 23))⌋₊ = m := by
    symm
    rw [Nat.eq_sqrt]
    constructor
    · exact Nat.le_floor h3
    · exact (Nat.floor_lt hq).mpr h4
  unfold sqrt32
  rw [if_neg (not_le.mpr hx), hl, hs]

/-- The error of one rounding in the normal range: at most `2 ^ -24` relative to the exact
value. -/
theorem round32_rel (x : ℚ) (hx : 1 / 2 ^ 126 ≤ |x|) :
    |round32 x - x| ≤ 1 / 2 ^ 24 * |x| := by
  have hx0 : 0 < |x| := lt_of_lt_of_le (by norm_num) hx
  have hl : (-126 : ℤ) ≤ Int.log 2 |x| := by
    apply (Int.zpow_le_iff_le_log (by norm_num) hx0).mp
    have : ((2 : ℕ) : ℚ) ^ (-126 : ℤ) = 1 / 2 ^ 126 := by norm_num [zpow_neg]
    rw [this]
    exact hx
  have hu : (0 : ℚ) < 2 ^ (Int.log 2 |x| - 23) := zpow_pos (by norm_num) _
  have h1 : |round32 x - x|
      = |(round_ne (x / 2 ^ (Int.log 2 |x| - 23)) : ℚ) - x / 2 ^ (Int.log 2 |x| - 23)|
        * 2 ^ (Int.log 2 |x| - 23) := by
    rw [← abs_of_pos hu, ← abs_mul, abs_of_pos hu, sub_mul, div_mul_cancel₀ _ (ne_of_gt hu)]
    unfold round32
    rw [max_eq_left hl]
  have h2 := round_ne_error (x / 2 ^ (Int.log 2 |x| - 23))
  have h3 : |round32 x - x| ≤ 1 / 2 * 2 ^ (Int.log 2 |x| - 23) := by
    rw [h1]
    exact mul_le_mul_of_nonneg_right h2 (le_of_lt hu)
  have hle := Int.zpow_log_le_self (by norm_num : 1 < 2) hx0
  have h4 : (2 : ℚ) ^ (Int.log 2 |x| - 23) = 2 ^ (Int.log 2 |x|) * (1 / 2 ^ 23) := by
    rw [zpow_sub₀ (by norm_num)]
    norm_num [div_eq_mul_inv]
  rw [h4] at h3
  push_cast at hle
  nlinarith

/-- The error of one square root: the result is nonnegative and its square is at most
`(1 + 2 ^ -24) ^ 2` times the argument. -/
theorem sqrt32_sq_le (x : ℚ) (hx : 0 < x) :
    0 ≤ sqrt32 x ∧ sqrt32 x * sqrt32 x ≤ x * ((1 + 1 / 2 ^ 24) * (1 + 1 / 2 ^ 24)) := by
  have hu : (0 : ℚ) < 2 ^ (Int.log 4 x - 23) := zpow_pos (by norm_num) _
  have hlog := Int.zpow_log_le_self (by norm_num : 1 < 4) hx
  push_cast at hlog
  have hw : (2 ^ 23 * (2 : ℚ) ^ (Int.log 4 x - 23)) * (2 ^ 23 * (2 : ℚ) ^ (Int.log 4 x - 23))
      ≤ x := by
    have e1 : (2 : ℚ) ^ (Int.log 4 x - 23) = 2 ^ (Int.log 4 x) / 2 ^ 23 := by
      rw [zpow_sub₀ (by norm_num)]
      norm_num
    have e2 : (4 : ℚ) ^ (Int.log 4 x) = 2 ^ (Int.log 4 x) * 2 ^ (Int.log 4 x) := by
      rw [← mul_zpow]
      norm_num
    rw [e1]
    rw [e2] at hlog
    have : (2 ^ 23 * ((2 : ℚ) ^ (Int.log 4 x) / 2 ^ 23)) = 2 ^ (Int.log 4 x) := by
      field_simp
    rw [this]
    exact hlog
  have hN : 0 ≤ 4 * x / (2 ^ (Int.log 4 x - 23) * 2 ^ (Int.log 4 x - 23)) := by positivity
  have hm : ((Nat.sqrt ⌊4 * x / (2 ^ (Int.log 4 x - 23) * 2 ^ (Int.log 4 x - 23))⌋₊ : ℕ) : ℚ)
      * (Nat.sqrt ⌊4 * x / (2 ^ (Int.log 4 x - 23) * 2 ^ (Int.log 4 x - 23))⌋₊ : ℕ)
      ≤ 4 * x / (2 ^ (Int.log 4 x - 23) * 2 ^ (Int.log 4 x - 23)) := by
    have h1 := Nat.sqrt_le ⌊4 * x / (2 ^ (Int.log 4 x - 23) * 2 ^ (Int.log 4 x - 23))⌋₊
    have h2 := Nat.floor_le hN
    have h3 : ((Nat.sqrt ⌊4 * x / (2 ^ (Int.log 4 x - 23) * 2 ^ (Int.log 4 x - 23))⌋₊
        * Nat.sqrt ⌊4 * x / (2 ^ (Int.log 4 x - 23) * 2 ^ (Int.log 4 x - 23))⌋₊ : ℕ) : ℚ)
        ≤ (⌊4 * x / (2 ^ (Int.log 4 x - 23) * 2 ^ (Int.log 4 x - 23))⌋₊ : ℚ) := by
      exact_mod_cast h1
    push_cast at h3
    linarith
  unfold sqrt32
  rw [if_neg (not_le.mpr hx)]
  generalize Nat.sqrt ⌊4 * x / (2 ^ (Int.log 4 x - 23) * 2 ^ (Int.log 4 x - 23))⌋₊ = m at hm ⊢
  generalize (2 : ℚ) ^ (Int.log 4 x - 23) = ulp at hu hw hm ⊢
  have hn : 2 * ((m + 1) / 2 : ℕ) ≤ m + 1 := Nat.mul_div_le (m + 1) 2
  generalize ((m + 1) / 2 : ℕ) = n at hn ⊢
  constructor
  · positivity
  · rcases Nat.eq_zero_or_pos n with h0 | h0
    · subst h0
      simp only [Nat.cast_zero, zero_mul]
      positivity
    · have hn1 : (1 : ℚ) ≤ n := by exact_mod_cast h0
      have hnm : (2 : ℚ) * n - 1 ≤ m := by
        have : ((2 * n : ℕ) : ℚ) ≤ ((m + 1 : ℕ) : ℚ) := by exact_mod_cast hn
        push_cast at this
        linarith
      have hm0 : (0 : ℚ) ≤ m := Nat.cast_nonneg m
      -- (2n - 1)^2 ≤ m^2 ≤ 4 x / ulp^2
      have hsq : (2 * (n : ℚ) - 1) * (2 * (n : ℚ) - 1) ≤ (m : ℚ) * m :=
        mul_self_le_mul_self (by linarith) hnm
      have hx4 : (m : ℚ) * m * (ulp * ulp) ≤ 4 * x := by
        have := (le_div_iff₀ (by positivity : (0 : ℚ) < ulp * ulp)).mp hm
        exact this
      -- u = n ulp - ulp / 2, w = 2^23 ulp
      have hu2 : ((n : ℚ) * ulp - ulp / 2) * ((n : ℚ) * ulp - ulp / 2) ≤ x := by
        have : ((n : ℚ) * ulp - ulp / 2) * ((n : ℚ) * ulp - ulp / 2)
            = (2 * (n : ℚ) - 1) * (2 * (n : ℚ) - 1) * (ulp * ulp) / 4 := by ring
        rw [this]
        have h5 : (2 * (n : ℚ) - 1) * (2 * (n : ℚ) - 1) * (ulp * ulp)
            ≤ (m : ℚ) * m * (ulp * ulp) :=
          mul_le_mul_of_nonneg_right hsq (by positivity)
        linarith
      have hu0 : 0 ≤ (n : ℚ) * ulp - ulp / 2 := by nlinarith
      have hw0 : 0 ≤ 2 ^ 23 * ulp := by positivity
      -- n ulp = u + eps * w
      have hR : (n : ℚ) * ulp = ((n : ℚ) * ulp - ulp / 2) + 1 / 2 ^ 24 * (2 ^ 23 * ulp) := by
        ring
      have hamgm : 2 * (((n : ℚ) * ulp - ulp / 2) * (2 ^ 23 * ulp))
          ≤ ((n : ℚ) * ulp - ulp / 2) * ((n : ℚ) * ulp - ulp / 2)
            + (2 ^ 23 * ulp) * (2 ^ 23 * ulp) := by
        nlinarith [sq_nonneg (((n : ℚ) * ulp - ulp / 2) - 2 ^ 23 * ulp)]
      generalize (n : ℚ) * ulp - ulp / 2 = u at hu2 hu0 hR hamgm
      generalize 2 ^ 23 * ulp = w at hw hw0 hR hamgm
      rw [hR]
      nlinarith

/-- One rounding of a positive value in the normal range, as two bounds. -/
theorem round32_pos_bounds (x : ℚ) (hx : 1 / 2 ^ 126 ≤ x) :
    x * (1 - 1 / 2 ^ 24) ≤ round32 x ∧ round32 x ≤ x * (1 + 1 / 2 ^ 24) := by
  have hx0 : 0 < x := lt_of_lt_of_le (by norm_num) hx
  have h := round32_rel x (by rw [abs_of_pos hx0]; exact hx)
  rw [abs_of_pos hx0] at h
  have h2 := abs_le.mp h
  constructor <;> linarith [h2.1, h2.2]

end Rounding

/-! ## Rounded arithmetic -/

section Rounded

variable {α : Type} [LinearOrderedField α]

theorem foldl_slew_rotor_fl (fl : α → α) (out : Nat → α) (m : Mixer α) (n : Nat) :
    (List.range n).foldl (slew_rotor_fl fl) (out, m)
      = (fun i => if i < n then
            (limit_output_fl fl m.out_min m.delta_out_max (out i) (m.outputs_prev i)).1
            else out i,
         { m with
           outputs_prev := fun i => if i < n then
             some (limit_output_fl fl m.out_min m.delta_out_max (out i) (m.outputs_prev i)).1
             else m.outputs_prev i
           saturation_status := status_after m.rotors
             (fun i => (limit_output_fl fl m.out_min m.delta_out_max (out i)
               (m.outputs_prev i)).2)
             m.saturation_status n }) := by
  induction n with
  | zero => simp [status_after]
  | succ n ih =>
    rw [List.range_succ, List.foldl_append, ih]
    simp only [List.foldl_cons, List.foldl_nil, slew_rotor_fl, update_saturation_status,
      lt_irrefl, if_false, status_after, List.range_succ, List.foldl_append]
    refine Prod.ext ?_ ?_
    · funext i
      simp only [Function.update_apply]
      by_cases h : i = n
      · subst h; simp
      · have : i < n + 1 ↔ i < n := by omega
        simp [h, this]
    · simp only [Mixer.mk.injEq, and_true, true_and]
      funext i
      simp only [Function.update_apply]
      by_cases h : i = n
      · subst h; simp
      · have : i < n + 1 ↔ i < n := by omega
        simp [h, this]

theorem mix_fl_outputs_lt (fl sqrtf : α → α) (m : Mixer α) (control : Fin 6 → α)
    (outputs : Nat → α) (space : Nat) {i : Nat} (hi : i < m.rotor_count) :
    (mix_fl fl sqrtf m control outputs space).outputs i = (mix_limit_fl fl sqrtf m control i).1 := by
  simp only [mix_fl, foldl_update_range, foldl_slew_rotor_fl, mix_limit_fl, mix_command_fl]
  simp [hi]

theorem limit_output_fl_of_not_armed (fl : α → α) (lo d out : α) (prev : Option α)
    (hd : d ≤ 0) : (limit_output_fl fl lo d out prev).1 = out := by
  simp [limit_output_fl, not_lt.mpr hd]

theorem limit_output_fl_none (fl : α → α) (lo d out : α) :
    (limit_output_fl fl lo d out none).1 = out := by
  unfold limit_output_fl
  split_ifs <;> rfl

theorem limit_output_fl_fst_some (fl : α → α) (lo d out p : α) :
    (limit_output_fl fl lo d out (some p)).1
      = if d > 0 then
          (if fl (out - p) > d then fl (p + d) else if fl (out - p) < -d then fl (p - d)
            else out)
        else out := by
  by_cases h0 : d > 0 <;> by_cases h1 : fl (out - p) > d <;> by_cases h2 : fl (out - p) < -d <;>
    simp [limit_output_fl, h0, h1, h2]

/-- The slew limiter in rounded arithmetic: when each rounding has a relative error of at
most `ε` and an absolute error of at most `η` beyond it, the limited output lies within
`d + ε * (|p| + 2 * d) + 2 * η` of the previous output `p`. -/
theorem limit_output_fl_slew (fl : α → α) (ε η : α) (hε0 : 0 ≤ ε) (hε1 : ε ≤ 1 / 2)
    (hη : 0 ≤ η) (herr : ∀ x, |fl x - x| ≤ ε * |x| + η) (lo d out p : α) (hd : 0 < d) :
    |(limit_output_fl fl lo d out (some p)).1 - p| ≤ d + ε * (|p| + 2 * d) + 2 * η := by
  rw [limit_output_fl_fst_some, if_pos hd]
  have hp0 := abs_nonneg p
  have hεd : 0 ≤ ε * d := mul_nonneg hε0 (le_of_lt hd)
  have hεp : 0 ≤ ε * |p| := mul_nonneg hε0 hp0
  have hb : ε * (|p| + 2 * d) = ε * |p| + 2 * (ε * d) := by ring
  rw [hb]
  split_ifs with h1 h2
  · have h := abs_le.mp (herr (p + d))
    have ht : |p + d| ≤ |p| + d := by
      calc |p + d| ≤ |p| + |d| := abs_add _ _
        _ = |p| + d := by rw [abs_of_pos hd]
    have hm : ε * |p + d| ≤ ε * |p| + ε * d := by
      rw [← mul_add]
      exact mul_le_mul_of_nonneg_left ht hε0
    rw [abs_le]
    constructor <;> linarith [h.1, h.2]
  · have h := abs_le.mp (herr (p - d))
    have ht : |p - d| ≤ |p| + d := by
      calc |p - d| ≤ |p| + |d| := abs_sub _ _
        _ = |p| + d := by rw [abs_of_pos hd]
    have hm : ε * |p - d| ≤ ε * |p| + ε * d := by
      rw [← mul_add]
      exact mul_le_mul_of_nonneg_left ht hε0
    rw [abs_le]
    constructor <;> linarith [h.1, h.2]
  · have h := herr (out - p)
    have hf : |fl (out - p)| ≤ d := abs_le.mpr ⟨not_lt.mp h2, not_lt.mp h1⟩
    have hx0 := abs_nonneg (out - p)
    have h3 : |out - p| ≤ |fl (out - p)| + |fl (out - p) - (out - p)| := by
      have := abs_sub_abs_le_abs_sub (out - p) (fl (out - p))
      rw [abs_sub_comm (out - p) (fl (out - p))] at this
      linarith
    have h4 : |out - p| - ε * |out - p| ≤ d + η := by linarith
    have h6 : (1 + 2 * ε) * (|out - p| - ε * |out - p|) ≤ (1 + 2 * ε) * (d + η) :=
      mul_le_mul_of_nonneg_left h4 (by linarith)
    have h7 : 0 ≤ ε * (1 - 2 * ε) * |out - p| :=
      mul_nonneg (mul_nonneg hε0 (by linarith)) hx0
    have h8 : 0 ≤ η * (1 - 2 * ε) := mul_nonneg hη (by linarith)
    have h9 : (1 + 2 * ε) * (d + η) = d + 2 * (ε * d) + 2 * η - η * (1 - 2 * ε) := by ring
    have h10 : (1 + 2 * ε) * (|out - p| - ε * |out - p|)
        = |out - p| + ε * (1 - 2 * ε) * |out - p| := by ring
    rw [h9, h10] at h6
    linarith

theorem dot_fl_zero_left (fl : α → α) (h0 : fl 0 = 0) (b : Vector6 α) :
    dot_fl fl ⟨0, 0, 0, 0, 0, 0⟩ b = 0 := by
  simp [dot_fl, h0]

theorem clip_rotor_fl_of_dot_u_zero (fl : α → α) (ht : 0 ≤ fl (1 / 1000000)) (lo hi : α)
    (c u nc b : Vector6 α) (h : dot_fl fl u b = 0) : clip_rotor_fl fl lo hi c u nc b = nc := by
  simp only [clip_rotor_fl, h, abs_zero, gt_iff_lt, not_lt.mpr ht, if_false, ite_self]

theorem clip_group_fl_zero (fl : α → α) (h0 : fl 0 = 0) (ht : 0 ≤ fl (1 / 1000000))
    (m : Mixer α) (axes : Vector6 Bool) :
    clip_group_fl fl m ⟨0, 0, 0, 0, 0, 0⟩ ⟨0, 0, 0, 0, 0, 0⟩ axes = ⟨0, 0, 0, 0, 0, 0⟩ := by
  have hnew : (Vector6.ofFn fun j => if axes.get j = true
      then (⟨0, 0, 0, 0, 0, 0⟩ : Vector6 α).get j else (⟨0, 0, 0, 0, 0, 0⟩ : Vector6 α).get j)
      = ⟨0, 0, 0, 0, 0, 0⟩ := by
    simp [Vector6.ofFn, Vector6.get]
  have hu : (Vector6.ofFn fun j => fl ((⟨0, 0, 0, 0, 0, 0⟩ : Vector6 α).get j
      - (⟨0, 0, 0, 0, 0, 0⟩ : Vector6 α).get j)) = ⟨0, 0, 0, 0, 0, 0⟩ := by
    simp [Vector6.ofFn, Vector6.get, h0]
  simp only [clip_group_fl, hnew, hu]
  apply List.foldl_fixed'
  intro ii
  exact clip_rotor_fl_of_dot_u_zero fl ht _ _ _ _ _ _ (dot_fl_zero_left fl h0 _)

theorem clip_command_fl_zero (fl : α → α) (h0 : fl 0 = 0) (ht : 0 ≤ fl (1 / 1000000))
    (m : Mixer α) : clip_command_fl fl m ⟨0, 0, 0, 0, 0, 0⟩ = ⟨0, 0, 0, 0, 0, 0⟩ := by
  simp [clip_command_fl, prioritary_axes, clip_group_fl_zero fl h0 ht]

theorem get_command_fl_zero (fl : α → α) (h0 : fl 0 = 0) (m : Mixer α) (control : Fin 6 → α)
    (h : ∀ j, control j = 0) : get_command_fl fl m control = ⟨0, 0, 0, 0, 0, 0⟩ := by
  norm_num [get_command_fl, h, h0, constrain]

theorem mix_command_fl_zero (fl : α → α) (h0 : fl 0 = 0) (ht : 0 ≤ fl (1 / 1000000))
    (m : Mixer α) (control : Fin 6 → α) (h : ∀ j, control j = 0) :
    mix_command_fl fl m control = ⟨0, 0, 0, 0, 0, 0⟩ := by
  have : (Vector6.ofFn fun j => if (!m.controlled_axes.get j) = true then (0 : α)
      else (get_command_fl fl m control).get j) = ⟨0, 0, 0, 0, 0, 0⟩ := by
    simp [get_command_fl_zero fl h0 m control h, Vector6.ofFn, Vector6.get]
  rw [mix_command_fl, this, clip_command_fl_zero fl h0 ht]

/-- The output that `mix` writes for a zero command in rounded arithmetic when no slew
limit is armed: the thrust inversion of 0, constrained. -/
theorem mix_fl_zero_command (fl sqrtf : α → α) (h0 : fl 0 = 0) (ht : 0 ≤ fl (1 / 1000000))
    (m : Mixer α) (control : Fin 6 → α) (outputs : Nat → α) (space : Nat)
    (hc : ∀ j, control j = 0) (hd : m.delta_out_max = 0) (i : Nat) (hi : i < m.rotor_count) :
    (mix_fl fl sqrtf m control outputs space).outputs i
      = constrain (thrust_inversion_fl fl sqrtf m.thrust_factor 0) m.out_min m.out_max := by
  rw [mix_fl_outputs_lt fl sqrtf m control outputs space hi, mix_limit_fl,
    limit_output_fl_of_not_armed _ _ _ _ _ (le_of_eq hd), mix_command_fl_zero fl h0 ht m control hc,
    mix_rotor_fl, dot_fl_zero_left fl h0]

theorem thrust_inversion_fl_exact (fl sqrtf : α → α) (hfl : ∀ x, fl x = x) (f o : α) :
    thrust_inversion_fl fl sqrtf f o = thrust_inversion sqrtf f o := by
  simp only [thrust_inversion_fl, thrust_inversion, hfl]

theorem dot_fl_exact (fl : α → α) (hfl : ∀ x, fl x = x) (a b : Vector6 α) :
    dot_fl fl a b = dot a b := by
  simp only [dot_fl, dot, hfl, zero_add]

theorem clip_command_rounding_free_of_exact (fl : α → α) (hfl : ∀ x, fl x = x) (m : Mixer α)
    (d : Vector6 α) : clip_command_rounding_free fl m d := by
  have hs : ∀ bound (c u b : Vector6 α), step_rounding_free fl bound c u b := by
    intro bound c u b
    refine ⟨dot_fl_exact fl hfl _ _, by rw [hfl], fun _ => ⟨dot_fl_exact fl hfl _ _, ?_, ?_⟩⟩
    · rw [hfl, hfl]
    · intro _
      apply Vector6.ofFn_congr
      intro j
      rw [hfl, hfl]
  have hr : ∀ (lo hi : α) (c u nc b : Vector6 α), clip_rotor_rounding_free fl lo hi c u nc b :=
    fun lo hi c u nc b => ⟨dot_fl_exact fl hfl _ _, fun _ => hs _ _ _ _, fun _ _ => hs _ _ _ _⟩
  have hg : ∀ (c : Vector6 α) (axes : Vector6 Bool), clip_group_rounding_free fl m d c axes :=
    fun c axes => ⟨Vector6.ofFn_congr _ _ (fun j => hfl _), fun n _ => hr _ _ _ _ _ _⟩
  exact ⟨hg _ _, hg _ _, hg _ _, hg _ _⟩

/-- The polynomial inequality behind `thrust_residue`. -/
theorem residue_poly (ε : α) (hε0 : 0 ≤ ε) (hε1 : ε ≤ 1 / 16) :
    (1 + ε) * (1 + ε) * (1 + ε) * (1 + ε) - (1 - ε) * (1 - ε)
      ≤ 8 * ε * ((1 - ε) * (1 + ε)) := by
  have e : 8 * ε * ((1 - ε) * (1 + ε))
      - ((1 + ε) * (1 + ε) * (1 + ε) * (1 + ε) - (1 - ε) * (1 - ε))
      = ε * (2 - 5 * ε - 12 * (ε * ε) - ε * ε * ε) := by ring
  have a1 : ε * ε ≤ 1 / 16 * ε := mul_le_mul_of_nonneg_right hε1 hε0
  have a2 : ε * ε * ε ≤ 1 / 16 * ε * ε := by
    have := mul_le_mul_of_nonneg_right a1 hε0
    linarith
  have h11 : 0 ≤ 2 - 5 * ε - 12 * (ε * ε) - ε * ε * ε := by linarith
  have := mul_nonneg hε0 h11
  linarith

/-- The rounded square root of the thrust inversion at 0 exceeds the exact quotient
`a / (2 f)` by a relative `4 ε` at most. -/
theorem residue_root (ε f a Q v W B S R : α) (hε0 : 0 ≤ ε) (hε1 : ε ≤ 1 / 16)
    (hf : 0 < f) (ha : 0 < a) (hQ : Q ≤ a * a * (1 + ε)) (hv : 4 * f * (1 - ε) ≤ v)
    (hW : v * f * (1 - ε) ≤ W) (hB : B * W ≤ Q * (1 + ε)) (hS : S ≤ B * (1 + ε))
    (hR0 : 0 ≤ R) (hR : R * R ≤ S * ((1 + ε) * (1 + ε))) :
    2 * f * (1 - ε) * R ≤ a * ((1 + ε) * (1 + ε) * (1 + ε)) := by
  have h1e : 0 < 1 - ε := by linarith
  have h1p : 0 < 1 + ε := by linarith
  have hW0 : 4 * f * f * ((1 - ε) * (1 - ε)) ≤ W := by
    have h1 : 4 * f * (1 - ε) * f * (1 - ε) ≤ v * f * (1 - ε) := by
      apply mul_le_mul_of_nonneg_right _ (le_of_lt h1e)
      exact mul_le_mul_of_nonneg_right hv (le_of_lt hf)
    have h2 : 4 * f * f * ((1 - ε) * (1 - ε)) = 4 * f * (1 - ε) * f * (1 - ε) := by ring
    rw [h2]
    exact le_trans h1 hW
  have hff : 0 < 4 * f * f * ((1 - ε) * (1 - ε)) :=
    mul_pos (mul_pos (mul_pos (by norm_num) hf) hf) (mul_pos h1e h1e)
  have hWpos : 0 < W := lt_of_lt_of_le hff hW0
  have hRR0 : 0 ≤ R * R := mul_self_nonneg R
  have hp2 : 0 < (1 + ε) * (1 + ε) := mul_pos h1p h1p
  have hp3 : 0 < (1 + ε) * (1 + ε) * (1 + ε) := mul_pos hp2 h1p
  have hp4 : 0 < (1 + ε) * (1 + ε) * (1 + ε) * (1 + ε) := mul_pos hp3 h1p
  have hp5 : 0 < (1 + ε) * (1 + ε) * (1 + ε) * (1 + ε) * (1 + ε) := mul_pos hp4 h1p
  have h3 : R * R * W ≤ a * a * ((1 + ε) * (1 + ε) * (1 + ε) * (1 + ε) * (1 + ε)) := by
    calc R * R * W ≤ S * ((1 + ε) * (1 + ε)) * W :=
          mul_le_mul_of_nonneg_right hR (le_of_lt hWpos)
      _ ≤ B * (1 + ε) * ((1 + ε) * (1 + ε)) * W := by
          apply mul_le_mul_of_nonneg_right _ (le_of_lt hWpos)
          exact mul_le_mul_of_nonneg_right hS (le_of_lt hp2)
      _ = B * W * ((1 + ε) * (1 + ε) * (1 + ε)) := by ring
      _ ≤ Q * (1 + ε) * ((1 + ε) * (1 + ε) * (1 + ε)) :=
          mul_le_mul_of_nonneg_right hB (le_of_lt hp3)
      _ = Q * ((1 + ε) * (1 + ε) * (1 + ε) * (1 + ε)) := by ring
      _ ≤ a * a * (1 + ε) * ((1 + ε) * (1 + ε) * (1 + ε) * (1 + ε)) :=
          mul_le_mul_of_nonneg_right hQ (le_of_lt hp4)
      _ = a * a * ((1 + ε) * (1 + ε) * (1 + ε) * (1 + ε) * (1 + ε)) := by ring
  have h4 : R * R * (4 * f * f * ((1 - ε) * (1 - ε))) ≤ R * R * W :=
    mul_le_mul_of_nonneg_left hW0 hRR0
  have haa : 0 < a * a := mul_pos ha ha
  have hpos : 0 ≤ a * a * ((1 + ε) * (1 + ε) * (1 + ε) * (1 + ε) * (1 + ε)) :=
    le_of_lt (mul_pos haa hp5)
  have h6 : a * a * ((1 + ε) * (1 + ε) * (1 + ε) * (1 + ε) * (1 + ε))
      ≤ a * a * ((1 + ε) * (1 + ε) * (1 + ε) * (1 + ε) * (1 + ε)) * (1 + ε) := by
    have := mul_le_mul_of_nonneg_left (by linarith : (1 : α) ≤ 1 + ε) hpos
    linarith
  have h5 : (2 * f * (1 - ε) * R) * (2 * f * (1 - ε) * R)
      ≤ (a * ((1 + ε) * (1 + ε) * (1 + ε))) * (a * ((1 + ε) * (1 + ε) * (1 + ε))) := by
    have e1 : (2 * f * (1 - ε) * R) * (2 * f * (1 - ε) * R)
        = R * R * (4 * f * f * ((1 - ε) * (1 - ε))) := by ring
    have e2 : (a * ((1 + ε) * (1 + ε) * (1 + ε))) * (a * ((1 + ε) * (1 + ε) * (1 + ε)))
        = a * a * ((1 + ε) * (1 + ε) * (1 + ε) * (1 + ε) * (1 + ε)) * (1 + ε) := by ring
    rw [e1, e2]
    linarith
  have hl : 0 ≤ 2 * f * (1 - ε) * R :=
    mul_nonneg (le_of_lt (mul_pos (mul_pos (by norm_num) hf) h1e)) hR0
  have hr : 0 ≤ a * ((1 + ε) * (1 + ε) * (1 + ε)) := le_of_lt (mul_pos ha hp3)
  exact (mul_self_le_mul_self_iff hl hr).mpr h5

/-- The cancellation of the thrust inversion at 0 under rounding.  With `a`, `t`, `A`, `Q`,
`v`, `W`, `B`, `S`, `R` the rounded values of `1 - f`, `2 f`, `-a / t`, `a a`, `4 f`,
`v f`, `Q / W`, `B + 0` and of the square root of `S`, each with a relative error of at
most `ε ≤ 1/16`, the sum `A + R`, which is zero in exact arithmetic, is at most
`8 ε a / (2 f)`. -/
theorem thrust_residue (ε f a t A Q v W B S R : α) (hε0 : 0 ≤ ε) (hε1 : ε ≤ 1 / 16)
    (hf : 0 < f) (ha : 0 < a) (ht0 : 0 < t) (ht : t ≤ 2 * f * (1 + ε))
    (hA : A * t ≤ -(a * (1 - ε))) (hQ : Q ≤ a * a * (1 + ε)) (hv : 4 * f * (1 - ε) ≤ v)
    (hW : v * f * (1 - ε) ≤ W) (hB : B * W ≤ Q * (1 + ε)) (hS : S ≤ B * (1 + ε))
    (hR0 : 0 ≤ R) (hR : R * R ≤ S * ((1 + ε) * (1 + ε))) :
    (A + R) * (2 * f) ≤ 8 * ε * a := by
  have h1e : 0 < 1 - ε := by linarith
  have h1p : 0 < 1 + ε := by linarith
  have h7 := residue_root ε f a Q v W B S R hε0 hε1 hf ha hQ hv hW hB hS hR0 hR
  have hA0 : A ≤ 0 := by
    by_contra hpos
    have hpos2 : 0 < A := not_le.mp hpos
    have h1 : 0 < A * t := mul_pos hpos2 ht0
    have h2 : 0 < a * (1 - ε) := mul_pos ha h1e
    linarith
  have h8 : A * (2 * f * (1 + ε)) ≤ -(a * (1 - ε)) := by
    have : A * (2 * f * (1 + ε)) ≤ A * t := mul_le_mul_of_nonpos_left ht hA0
    linarith
  have h9 : (A + R) * (2 * f) * ((1 - ε) * (1 + ε))
      ≤ a * ((1 + ε) * (1 + ε) * (1 + ε) * (1 + ε) - (1 - ε) * (1 - ε)) := by
    have e : (A + R) * (2 * f) * ((1 - ε) * (1 + ε))
        = (1 - ε) * (A * (2 * f * (1 + ε))) + (1 + ε) * (2 * f * (1 - ε) * R) := by ring
    rw [e]
    have i1 : (1 - ε) * (A * (2 * f * (1 + ε))) ≤ (1 - ε) * (-(a * (1 - ε))) :=
      mul_le_mul_of_nonneg_left h8 (le_of_lt h1e)
    have i2 : (1 + ε) * (2 * f * (1 - ε) * R)
        ≤ (1 + ε) * (a * ((1 + ε) * (1 + ε) * (1 + ε))) :=
      mul_le_mul_of_nonneg_left h7 (le_of_lt h1p)
    have e2 : a * ((1 + ε) * (1 + ε) * (1 + ε) * (1 + ε) - (1 - ε) * (1 - ε))
        = (1 - ε) * (-(a * (1 - ε))) + (1 + ε) * (a * ((1 + ε) * (1 + ε) * (1 + ε))) := by
      ring
    rw [e2]
    linarith
  have h10 := residue_poly ε hε0 hε1
  have h12 : (A + R) * (2 * f) * ((1 - ε) * (1 + ε)) ≤ 8 * ε * a * ((1 - ε) * (1 + ε)) := by
    have : a * ((1 + ε) * (1 + ε) * (1 + ε) * (1 + ε) - (1 - ε) * (1 - ε))
        ≤ a * (8 * ε * ((1 - ε) * (1 + ε))) := mul_le_mul_of_nonneg_left h10 (le_of_lt ha)
    have e : 8 * ε * a * ((1 - ε) * (1 + ε)) = a * (8 * ε * ((1 - ε) * (1 + ε))) := by ring
    rw [e]
    linarith
  exact le_of_mul_le_mul_right h12 (mul_pos h1e h1p)

/-- The rounded sum of two terms that cancel up to `8 ε a / (2 f)`. -/
theorem residue_round (f a A R p : ℚ) (hf0 : 0 < f) (hf1 : f ≤ 1) (ha : a ≤ 1 + 1 / 2 ^ 24)
    (hres : (A + R) * (2 * f) ≤ 8 * (1 / 2 ^ 24) * a)
    (hp : |p - (A + R)| ≤ 1 / 2 ^ 24 * |A + R| + 1 / 2 ^ 150) :
    p ≤ 1 / (2 ^ 21 * f) := by
  rw [le_div_iff₀ (by positivity)]
  have hp2 := (abs_le.mp hp).2
  have h8 : (1 / 2 ^ 150 : ℚ) * f ≤ 1 / 2 ^ 150 * 1 :=
    mul_le_mul_of_nonneg_left hf1 (by norm_num)
  have e : p * (2 ^ 21 * f) = 2 ^ 21 * (p * f) := by ring
  rw [e]
  rcases le_total 0 (A + R) with hs | hs
  · rw [abs_of_nonneg hs] at hp2
    have h4 : (A + R) * f ≤ 4 * (1 / 2 ^ 24) * (1 + 1 / 2 ^ 24) := by linarith
    have h5 : p * f ≤ ((A + R) * (1 + 1 / 2 ^ 24) + 1 / 2 ^ 150) * f :=
      mul_le_mul_of_nonneg_right (by linarith) (le_of_lt hf0)
    have h6 : ((A + R) * (1 + 1 / 2 ^ 24) + 1 / 2 ^ 150) * f
        = (A + R) * f * (1 + 1 / 2 ^ 24) + 1 / 2 ^ 150 * f := by ring
    have h7 : (A + R) * f * (1 + 1 / 2 ^ 24)
        ≤ 4 * (1 / 2 ^ 24) * (1 + 1 / 2 ^ 24) * (1 + 1 / 2 ^ 24) :=
      mul_le_mul_of_nonneg_right h4 (by norm_num)
    have h9 : p * f ≤ 4 * (1 / 2 ^ 24) * (1 + 1 / 2 ^ 24) * (1 + 1 / 2 ^ 24) + 1 / 2 ^ 150 := by
      linarith
    have h10 : (2 : ℚ) ^ 21 * (p * f) ≤ 2 ^ 21
        * (4 * (1 / 2 ^ 24) * (1 + 1 / 2 ^ 24) * (1 + 1 / 2 ^ 24) + 1 / 2 ^ 150) :=
      mul_le_mul_of_nonneg_left h9 (by norm_num)
    have e2 : (2 : ℚ) ^ 21
        * (4 * (1 / 2 ^ 24) * (1 + 1 / 2 ^ 24) * (1 + 1 / 2 ^ 24) + 1 / 2 ^ 150) ≤ 1 := by
      norm_num
    linarith
  · rw [abs_of_nonpos hs] at hp2
    have h5 : p ≤ 1 / 2 ^ 150 := by
      have : (A + R) * (1 / 2 ^ 24) ≤ 0 := mul_nonpos_of_nonpos_of_nonneg hs (by norm_num)
      linarith
    have h6 : p * f ≤ 1 / 2 ^ 150 * f := mul_le_mul_of_nonneg_right h5 (le_of_lt hf0)
    have : (2 : ℚ) ^ 21 * (p * f) ≤ 2 ^ 21 * (1 / 2 ^ 150 * 1) :=
      mul_le_mul_of_nonneg_left (by linarith) (by norm_num)
    have e2 : (2 : ℚ) ^ 21 * (1 / 2 ^ 150 * 1) ≤ 1 := by norm_num
    linarith

/-- The binary32 thrust inversion of a zero mixed value, written out. -/
theorem thrust_inversion_fl_zero (f : ℚ) (hf : 0 < f) :
    thrust_inversion_fl round32 sqrt32 f 0
      = round32 (round32 (-(round32 (1 - f)) / round32 (2 * f))
          + sqrt32 (round32 (round32 (round32 (round32 (1 - f) * round32 (1 - f))
              / round32 (round32 (4 * f) * f))))) := by
  simp only [thrust_inversion_fl, if_pos hf, lt_irrefl, if_false, zero_div, round32_zero,
    add_zero]

set_option maxHeartbeats 1000000 in
/-- The thrust inversion of a zero mixed value in binary32 arithmetic, for a thrust factor
`f` in `[2^-60, 1 - 2^-24]`: the two terms cancel up to `2^-21 / f`. -/
theorem thrust_inversion_fl_le (f : ℚ) (h1 : 1 / 2 ^ 60 ≤ f) (h2 : f ≤ 1 - 1 / 2 ^ 24) :
    thrust_inversion_fl round32 sqrt32 f 0 ≤ 1 / (2 ^ 21 * f) := by
  have hf0 : 0 < f := lt_of_lt_of_le (by norm_num) h1
  have hf1 : f ≤ 1 := by linarith
  rw [thrust_inversion_fl_zero f hf0]
  -- a = fl (1 - f)
  obtain ⟨ha1, ha2⟩ := round32_pos_bounds (1 - f) (by linarith)
  have ha3 : 1 / 2 ^ 25 ≤ round32 (1 - f) := by
    have : (1 / 2 ^ 24 : ℚ) * (1 - 1 / 2 ^ 24) ≤ (1 - f) * (1 - 1 / 2 ^ 24) :=
      mul_le_mul_of_nonneg_right (by linarith) (by norm_num)
    have e : (1 / 2 ^ 25 : ℚ) ≤ 1 / 2 ^ 24 * (1 - 1 / 2 ^ 24) := by norm_num
    linarith
  have ha4 : round32 (1 - f) ≤ 2 := by
    have : (1 - f) * (1 + 1 / 2 ^ 24) ≤ 1 * (1 + 1 / 2 ^ 24) :=
      mul_le_mul_of_nonneg_right (by linarith) (by norm_num)
    have e : (1 : ℚ) * (1 + 1 / 2 ^ 24) ≤ 2 := by norm_num
    linarith
  have ha5 : round32 (1 - f) ≤ 1 + 1 / 2 ^ 24 := by
    have : (1 - f) * (1 + 1 / 2 ^ 24) ≤ 1 * (1 + 1 / 2 ^ 24) :=
      mul_le_mul_of_nonneg_right (by linarith) (by norm_num)
    linarith
  -- t = fl (2 f)
  obtain ⟨ht1, ht2⟩ := round32_pos_bounds (2 * f) (by linarith)
  have ht3 : 0 < round32 (2 * f) := by
    have : 0 < 2 * f * (1 - 1 / 2 ^ 24) := mul_pos (by linarith) (by norm_num)
    linarith
  have ht4 : round32 (2 * f) ≤ 4 := by
    have : 2 * f * (1 + 1 / 2 ^ 24) ≤ 2 * 1 * (1 + 1 / 2 ^ 24) :=
      mul_le_mul_of_nonneg_right (by linarith) (by norm_num)
    have e : (2 : ℚ) * 1 * (1 + 1 / 2 ^ 24) ≤ 4 := by norm_num
    linarith
  generalize round32 (1 - f) = a at ha1 ha2 ha3 ha4 ha5 ⊢
  generalize ht : round32 (2 * f) = t at ht1 ht2 ht3 ht4 ⊢
  have ha0 : 0 < a := lt_of_lt_of_le (by norm_num) ha3
  -- A = fl (-a / t)
  have hq : 1 / 2 ^ 27 ≤ a / t := by
    rw [le_div_iff₀ ht3]
    have : 1 / 2 ^ 27 * t ≤ 1 / 2 ^ 27 * 4 := mul_le_mul_of_nonneg_left ht4 (by norm_num)
    have e : (1 / 2 ^ 27 : ℚ) * 4 = 1 / 2 ^ 25 := by norm_num
    linarith
  have hA : round32 (-a / t) * t ≤ -(a * (1 - 1 / 2 ^ 24)) := by
    have hq0 : 0 < a / t := lt_of_lt_of_le (by norm_num) hq
    have habs : |(-a / t)| = a / t := by
      rw [neg_div, abs_neg, abs_of_pos hq0]
    have h := round32_rel (-a / t) (by rw [habs]; linarith)
    rw [habs] at h
    have h3 := (abs_le.mp h).2
    have h4 : round32 (-a / t) ≤ -(a / t) * (1 - 1 / 2 ^ 24) := by
      have : (-a / t) = -(a / t) := neg_div _ _
      rw [this] at h3 ⊢
      linarith
    have h5 := mul_le_mul_of_nonneg_right h4 (le_of_lt ht3)
    have e : -(a / t) * (1 - 1 / 2 ^ 24) * t = -(a * (1 - 1 / 2 ^ 24)) := by
      field_simp
      ring
    linarith
  -- Q = fl (a a)
  have haa : 1 / 2 ^ 50 ≤ a * a := by
    have := mul_le_mul ha3 ha3 (by norm_num) (le_of_lt ha0)
    have e : (1 / 2 ^ 25 : ℚ) * (1 / 2 ^ 25) = 1 / 2 ^ 50 := by norm_num
    linarith
  obtain ⟨hQ1, hQ2⟩ := round32_pos_bounds (a * a) (by linarith)
  have hQ3 : 1 / 2 ^ 51 ≤ round32 (a * a) := by
    have : (1 / 2 ^ 50 : ℚ) * (1 - 1 / 2 ^ 24) ≤ a * a * (1 - 1 / 2 ^ 24) :=
      mul_le_mul_of_nonneg_right haa (by norm_num)
    have e : (1 / 2 ^ 51 : ℚ) ≤ 1 / 2 ^ 50 * (1 - 1 / 2 ^ 24) := by norm_num
    linarith
  -- v = fl (4 f)
  obtain ⟨hv1, hv2⟩ := round32_pos_bounds (4 * f) (by linarith)
  have hv3 : 1 / 2 ^ 59 ≤ round32 (4 * f) := by
    have : (4 * (1 / 2 ^ 60) : ℚ) * (1 - 1 / 2 ^ 24) ≤ 4 * f * (1 - 1 / 2 ^ 24) :=
      mul_le_mul_of_nonneg_right (by linarith) (by norm_num)
    have e : (1 / 2 ^ 59 : ℚ) ≤ 4 * (1 / 2 ^ 60) * (1 - 1 / 2 ^ 24) := by norm_num
    linarith
  have hv4 : round32 (4 * f) ≤ 8 := by
    have : 4 * f * (1 + 1 / 2 ^ 24) ≤ 4 * 1 * (1 + 1 / 2 ^ 24) :=
      mul_le_mul_of_nonneg_right (by linarith) (by norm_num)
    have e : (4 : ℚ) * 1 * (1 + 1 / 2 ^ 24) ≤ 8 := by norm_num
    linarith
  generalize round32 (a * a) = Q at hQ1 hQ2 hQ3 ⊢
  generalize round32 (4 * f) = v at hv1 hv2 hv3 hv4 ⊢
  have hv0 : 0 < v := lt_of_lt_of_le (by norm_num) hv3
  -- W = fl (v f)
  have hvf : 1 / 2 ^ 119 ≤ v * f := by
    have := mul_le_mul hv3 h1 (by norm_num) (le_of_lt hv0)
    have e : (1 / 2 ^ 59 : ℚ) * (1 / 2 ^ 60) = 1 / 2 ^ 119 := by norm_num
    linarith
  have hvf8 : v * f ≤ 8 := by
    have := mul_le_mul hv4 hf1 (le_of_lt hf0) (by norm_num)
    linarith
  obtain ⟨hW1, hW2⟩ := round32_pos_bounds (v * f) (by linarith)
  have hW3 : 0 < round32 (v * f) := by
    have : 0 < v * f * (1 - 1 / 2 ^ 24) := mul_pos (mul_pos hv0 hf0) (by norm_num)
    linarith
  have hW4 : round32 (v * f) ≤ 16 := by
    have : v * f * (1 + 1 / 2 ^ 24) ≤ 8 * (1 + 1 / 2 ^ 24) :=
      mul_le_mul_of_nonneg_right hvf8 (by norm_num)
    have e : (8 : ℚ) * (1 + 1 / 2 ^ 24) ≤ 16 := by norm_num
    linarith
  generalize round32 (v * f) = W at hW1 hW2 hW3 hW4 ⊢
  -- B = fl (Q / W)
  have hQW : 1 / 2 ^ 55 ≤ Q / W := by
    rw [le_div_iff₀ hW3]
    have : 1 / 2 ^ 55 * W ≤ 1 / 2 ^ 55 * 16 := mul_le_mul_of_nonneg_left hW4 (by norm_num)
    have e : (1 / 2 ^ 55 : ℚ) * 16 = 1 / 2 ^ 51 := by norm_num
    linarith
  obtain ⟨hB1, hB2⟩ := round32_pos_bounds (Q / W) (by linarith)
  have hB3 : 1 / 2 ^ 56 ≤ round32 (Q / W) := by
    have : (1 / 2 ^ 55 : ℚ) * (1 - 1 / 2 ^ 24) ≤ Q / W * (1 - 1 / 2 ^ 24) :=
      mul_le_mul_of_nonneg_right hQW (by norm_num)
    have e : (1 / 2 ^ 56 : ℚ) ≤ 1 / 2 ^ 55 * (1 - 1 / 2 ^ 24) := by norm_num
    linarith
  have hBW : round32 (Q / W) * W ≤ Q * (1 + 1 / 2 ^ 24) := by
    have h5 := mul_le_mul_of_nonneg_right hB2 (le_of_lt hW3)
    have e : Q / W * (1 + 1 / 2 ^ 24) * W = Q * (1 + 1 / 2 ^ 24) := by
      field_simp
      ring
    linarith
  generalize round32 (Q / W) = B at hB1 hB2 hB3 hBW ⊢
  -- S = fl (B + 0)
  obtain ⟨hS1, hS2⟩ := round32_pos_bounds B (by linarith)
  have hS3 : 0 < round32 B := by
    have : 0 < B * (1 - 1 / 2 ^ 24) :=
      mul_pos (lt_of_lt_of_le (by norm_num) hB3) (by norm_num)
    linarith
  -- R = sqrtf S
  obtain ⟨hR0, hR⟩ := sqrt32_sq_le (round32 B) hS3
  generalize round32 B = S at hS1 hS2 hS3 hR0 hR ⊢
  generalize hRdef : sqrt32 S = R at hR0 hR ⊢
  have hres := thrust_residue (1 / 2 ^ 24) f a t (round32 (-a / t)) Q v W B S R (by norm_num)
    (by norm_num) hf0 ha0 ht3 ht2 hA hQ2 hv1 hW1 hBW hS2 hR0 hR
  -- p = fl (A + R)
  have hp := round32_error (round32 (-a / t) + R)
  exact residue_round f a _ _ _ hf0 hf1 ha5 hres hp

end Rounded

/-! ## The example mixers -/

section Examples

theorem idle_half_mixer_prev : idle_half_mixer.outputs_prev 0 = some 0 := by
  have hm : memset_float (-1 + (1 / 2 : ℚ) * 2) = some 0 :=
    memset_float_of_abs_lt_one _ (by norm_num) (by norm_num)
  simp only [idle_half_mixer, MultirotorMixer6dof, hm]
  simp

theorem idle_half_mixer_limit (control : Fin 6 → ℚ) (h : ∀ j, control j = 0) :
    mix_limit Rat.sqrt idle_half_mixer control 0 = (1 / 10, true, true) := by
  rw [mix_limit, mix_command_zero _ _ h, idle_half_mixer_prev]
  norm_num [idle_half_mixer, MultirotorMixer6dof, mix_rotor, thrust_inversion, dot, constrain,
    limit_output, single_rotor]

theorem idle_half_mixer_output (outputs : Nat → ℚ) (space : Nat) :
    (mix Rat.sqrt idle_half_mixer (fun _ => 0) outputs space).outputs 0 = 1 / 10 := by
  rw [mix_outputs_lt _ _ _ _ _ (by simp [idle_half_mixer, MultirotorMixer6dof]),
    idle_half_mixer_limit _ (fun _ => rfl)]

theorem plain_mixer_command :
    mix_command plain_mixer (fun j => if j = 5 then 1 / 2 else 0) = ⟨0, 0, 0, 0, 0, 1 / 2⟩ := by
  have hmask : (Vector6.ofFn fun j => if (!plain_mixer.controlled_axes.get j) = true then (0 : ℚ)
      else (get_command plain_mixer (fun j => if j = 5 then 1 / 2 else 0)).get j)
      = ⟨0, 0, 0, 0, 0, 1 / 2⟩ := by
    norm_num [plain_mixer, MultirotorMixer6dof, get_command, constrain, Vector6.ofFn, Vector6.get,
      single_rotor, List.range_succ]
  have g1 : clip_group plain_mixer ⟨0, 0, 0, 0, 0, 1 / 2⟩ ⟨0, 0, 0, 0, 0, 0⟩
      ⟨false, false, false, false, false, true⟩ = ⟨0, 0, 0, 0, 0, 1 / 2⟩ := by
    norm_num [clip_group, plain_mixer, MultirotorMixer6dof, List.range_succ, clip_rotor, dot,
      Vector6.ofFn, Vector6.get, lt_abs, single_rotor]
  have g2 : clip_group plain_mixer ⟨0, 0, 0, 0, 0, 1 / 2⟩ ⟨0, 0, 0, 0, 0, 1 / 2⟩
      ⟨true, true, false, false, false, false⟩ = ⟨0, 0, 0, 0, 0, 1 / 2⟩ :=
    clip_group_of_no_step _ _ _ _ (fun j hj => by fin_cases j <;> simp_all [Vector6.get])
  have g3 : clip_group plain_mixer ⟨0, 0, 0, 0, 0, 1 / 2⟩ ⟨0, 0, 0, 0, 0, 1 / 2⟩
      ⟨false, false, true, false, false, false⟩ = ⟨0, 0, 0, 0, 0, 1 / 2⟩ :=
    clip_group_of_no_step _ _ _ _ (fun j hj => by fin_cases j <;> simp_all [Vector6.get])
  have g4 : clip_group plain_mixer ⟨0, 0, 0, 0, 0, 1 / 2⟩ ⟨0, 0, 0, 0, 0, 1 / 2⟩
      ⟨false, false, false, true, true, false⟩ = ⟨0, 0, 0, 0, 0, 1 / 2⟩ :=
    clip_group_of_no_step _ _ _ _ (fun j hj => by fin_cases j <;> simp_all [Vector6.get])
  rw [mix_command, hmask, clip_command_eq, g1, g2, g3, g4]

theorem plain_mixer_rotor :
    mix_rotor Rat.sqrt plain_mixer
      (mix_command plain_mixer (fun j => if j = 5 then 1 / 2 else 0)) 0 = 1 / 2 := by
  rw [plain_mixer_command]
  norm_num [plain_mixer, MultirotorMixer6dof, mix_rotor, thrust_inversion, dot, constrain,
    single_rotor]

theorem round32_1_1000000 : round32 (1 / 1000000) = 8796093 / 8796093022208 := by
  rw [round32_eq (1 / 1000000) (-20) 8796093 (by norm_num)
    (le_trans (by norm_num) (le_abs_self _))
    (abs_lt.mpr ⟨by norm_num, by norm_num⟩)
    (Or.inl (abs_lt.mpr ⟨by norm_num, by norm_num⟩))]
  norm_num

theorem round32_1 : round32 (1) = 1 := by
  rw [round32_eq (1) 0 8388608 (by norm_num)
    (le_trans (by norm_num) (le_abs_self _))
    (abs_lt.mpr ⟨by norm_num, by norm_num⟩)
    (Or.inl (abs_lt.mpr ⟨by norm_num, by norm_num⟩))]
  norm_num

theorem round32_1_2 : round32 (1 / 2) = 1 / 2 := by
  rw [round32_eq (1 / 2) (-1) 8388608 (by norm_num)
    (le_trans (by norm_num) (le_abs_self _))
    (abs_lt.mpr ⟨by norm_num, by norm_num⟩)
    (Or.inl (abs_lt.mpr ⟨by norm_num, by norm_num⟩))]
  norm_num

theorem round32_99_100 : round32 (99 / 100) = 4152361 / 4194304 := by
  rw [round32_eq (99 / 100) (-1) 16609444 (by norm_num)
    (le_trans (by norm_num) (le_abs_self _))
    (abs_lt.mpr ⟨by norm_num, by norm_num⟩)
    (Or.inl (abs_lt.mpr ⟨by norm_num, by norm_num⟩))]
  norm_num

theorem round32_80530637_134217728 : round32 (80530637 / 134217728) = 5033165 / 8388608 := by
  rw [round32_eq (80530637 / 134217728) (-1) 10066330 (by norm_num)
    (le_trans (by norm_num) (le_abs_self _))
    (abs_lt.mpr ⟨by norm_num, by norm_num⟩)
    (Or.inl (abs_lt.mpr ⟨by norm_num, by norm_num⟩))]
  norm_num

theorem round32_531502203_536870912 : round32 (531502203 / 536870912) = 4152361 / 4194304 := by
  rw [round32_eq (531502203 / 536870912) (-1) 16609444 (by norm_num)
    (le_trans (by norm_num) (le_abs_self _))
    (abs_lt.mpr ⟨by norm_num, by norm_num⟩)
    (Or.inl (abs_lt.mpr ⟨by norm_num, by norm_num⟩))]
  norm_num

theorem round32_5368709_268435456 : round32 (5368709 / 268435456) = 5368709 / 268435456 := by
  rw [round32_eq (5368709 / 268435456) (-6) 10737418 (by norm_num)
    (le_trans (by norm_num) (le_abs_self _))
    (abs_lt.mpr ⟨by norm_num, by norm_num⟩)
    (Or.inl (abs_lt.mpr ⟨by norm_num, by norm_num⟩))]
  norm_num

theorem round32_neg_265751104_5368709 : round32 (-(265751104 / 5368709)) = -(99 / 2) := by
  rw [round32_eq (-(265751104 / 5368709)) 5 (-12976128) (by norm_num)
    (le_trans (by norm_num) (neg_le_abs _))
    (abs_lt.mpr ⟨by norm_num, by norm_num⟩)
    (Or.inl (abs_lt.mpr ⟨by norm_num, by norm_num⟩))]
  norm_num

theorem round32_17242101874321_17592186044416 : round32 (17242101874321 / 17592186044416) = 8221675 / 8388608 := by
  rw [round32_eq (17242101874321 / 17592186044416) (-1) 16443350 (by norm_num)
    (le_trans (by norm_num) (le_abs_self _))
    (abs_lt.mpr ⟨by norm_num, by norm_num⟩)
    (Or.inl (abs_lt.mpr ⟨by norm_num, by norm_num⟩))]
  norm_num

theorem round32_5368709_134217728 : round32 (5368709 / 134217728) = 5368709 / 134217728 := by
  rw [round32_eq (5368709 / 134217728) (-5) 10737418 (by norm_num)
    (le_trans (by norm_num) (le_abs_self _))
    (abs_lt.mpr ⟨by norm_num, by norm_num⟩)
    (Or.inl (abs_lt.mpr ⟨by norm_num, by norm_num⟩))]
  norm_num

theorem round32_28823036326681_72057594037927936 : round32 (28823036326681 / 72057594037927936) = 13743895 / 34359738368 := by
  rw [round32_eq (28823036326681 / 72057594037927936) (-12) 13743895 (by norm_num)
    (le_trans (by norm_num) (le_abs_self _))
    (abs_lt.mpr ⟨by norm_num, by norm_num⟩)
    (Or.inl (abs_lt.mpr ⟨by norm_num, by norm_num⟩))]
  norm_num

theorem round32_612290560_249889 : round32 (612290560 / 249889) = 10036225 / 4096 := by
  rw [round32_eq (612290560 / 249889) 11 10036225 (by norm_num)
    (le_trans (by norm_num) (le_abs_self _))
    (abs_lt.mpr ⟨by norm_num, by norm_num⟩)
    (Or.inl (abs_lt.mpr ⟨by norm_num, by norm_num⟩))]
  norm_num

theorem round32_10036225_4096 : round32 (10036225 / 4096) = 10036225 / 4096 := by
  rw [round32_eq (10036225 / 4096) 11 10036225 (by norm_num)
    (le_trans (by norm_num) (le_abs_self _))
    (abs_lt.mpr ⟨by norm_num, by norm_num⟩)
    (Or.inl (abs_lt.mpr ⟨by norm_num, by norm_num⟩))]
  norm_num

theorem round32_1_262144 : round32 (1 / 262144) = 1 / 262144 := by
  rw [round32_eq (1 / 262144) (-18) 8388608 (by norm_num)
    (le_trans (by norm_num) (le_abs_self _))
    (abs_lt.mpr ⟨by norm_num, by norm_num⟩)
    (Or.inl (abs_lt.mpr ⟨by norm_num, by norm_num⟩))]
  norm_num

theorem round32_1_100 : round32 (1 / 100) = 5368709 / 536870912 := by
  rw [round32_eq (1 / 100) (-7) 10737418 (by norm_num)
    (le_trans (by norm_num) (le_abs_self _))
    (abs_lt.mpr ⟨by norm_num, by norm_num⟩)
    (Or.inl (abs_lt.mpr ⟨by norm_num, by norm_num⟩))]
  norm_num

theorem round32_5368709_536870912 : round32 (5368709 / 536870912) = 5368709 / 536870912 := by
  rw [round32_eq (5368709 / 536870912) (-7) 10737418 (by norm_num)
    (le_trans (by norm_num) (le_abs_self _))
    (abs_lt.mpr ⟨by norm_num, by norm_num⟩)
    (Or.inl (abs_lt.mpr ⟨by norm_num, by norm_num⟩))]
  norm_num

theorem sqrt32_10036225_4096 : sqrt32 (10036225 / 4096) = 12976129 / 262144 := by
  rw [sqrt32_eq (10036225 / 4096) 5 25952257 (by norm_num) (by norm_num) (by norm_num)
    (by norm_num)]
  norm_num

theorem memset_float_neg_one : memset_float (-1 : ℚ) = none := by
  have h1 : float_to_int (-1 : ℚ) = -1 := by
    have : ¬ (0 : ℚ) ≤ -1 := by norm_num
    simp only [float_to_int, if_neg this]
    exact_mod_cast Int.ceil_intCast (-1 : ℤ)
  have h2 : ((-1 : ℤ) % 256).toNat = 255 := by decide
  rw [memset_float, h1, h2]
  have h3 : (255 % 128) * 2 + 255 / 128 = 255 := by norm_num
  simp only [float_of_byte, h3, if_true]

theorem thin_thrust_mixer_inversion :
    thrust_inversion_fl round32 sqrt32 (5368709 / 536870912) 0 = 1 / 262144 := by
  norm_num [thrust_inversion_fl, round32_zero, round32_531502203_536870912,
    round32_5368709_268435456, round32_neg_265751104_5368709,
    round32_17242101874321_17592186044416, round32_5368709_134217728,
    round32_28823036326681_72057594037927936, round32_612290560_249889,
    round32_10036225_4096, sqrt32_10036225_4096, round32_1_262144]

theorem thin_thrust_mixer_output :
    (mix_fl round32 sqrt32 thin_thrust_mixer (fun _ => 0) (fun _ => 0) 1).outputs 0
      = 1 / 262144 := by
  rw [mix_fl_zero_command round32 sqrt32 round32_zero (by rw [round32_1_1000000]; norm_num)
    thin_thrust_mixer _ _ _ (fun _ => rfl) (by simp [thin_thrust_mixer, MultirotorMixer6dof]) 0
    (by simp [thin_thrust_mixer, MultirotorMixer6dof])]
  have h : thin_thrust_mixer.thrust_factor = 5368709 / 536870912 := rfl
  rw [h, thin_thrust_mixer_inversion]
  norm_num [constrain, thin_thrust_mixer, MultirotorMixer6dof]

theorem armed_mixer_command :
    mix_command_fl round32 armed_mixer (fun j => if j = 5 then 1 else 0)
      = ⟨0, 0, 0, 0, 0, 1⟩ := by
  have hmask : (Vector6.ofFn fun j => if (!armed_mixer.controlled_axes.get j) = true
      then (0 : ℚ)
      else (get_command_fl round32 armed_mixer (fun j => if j = 5 then 1 else 0)).get j)
      = ⟨0, 0, 0, 0, 0, 1⟩ := by
    norm_num [armed_mixer, MultirotorMixer6dof, get_command_fl, constrain, Vector6.ofFn,
      Vector6.get, single_rotor, List.range_succ, round32_zero, round32_1]
  rw [mix_command_fl, hmask]
  norm_num [clip_command_fl, prioritary_axes, clip_group_fl, armed_mixer, MultirotorMixer6dof,
    List.range_succ, clip_rotor_fl, dot_fl, Vector6.ofFn, Vector6.get, lt_abs, single_rotor,
    round32_zero, round32_1_1000000, round32_1]

theorem armed_mixer_output :
    (mix_fl round32 sqrt32 armed_mixer (fun j => if j = 5 then 1 else 0) (fun _ => 0) 1).outputs 0
      = 5033165 / 8388608 := by
  rw [mix_fl_outputs_lt _ _ _ _ _ _ (by simp [armed_mixer, MultirotorMixer6dof]), mix_limit_fl,
    armed_mixer_command]
  norm_num [armed_mixer, MultirotorMixer6dof, mix_rotor_fl, thrust_inversion_fl, dot_fl,
    constrain, limit_output_fl, single_rotor, round32_zero, round32_1, round32_99_100,
    round32_1_100, round32_5368709_536870912, round32_1_2, round32_80530637_134217728]

theorem fresh_armed_mixer_prev : fresh_armed_mixer.outputs_prev 0 = none := by
  have hm : memset_float (-1 + (0 : ℚ) * 2) = none := by
    have : (-1 + (0 : ℚ) * 2) = -1 := by norm_num
    rw [this]
    exact memset_float_neg_one
  simp only [fresh_armed_mixer, MultirotorMixer6dof, hm]
  simp

theorem fresh_armed_mixer_command :
    mix_command_fl round32 fresh_armed_mixer (fun j => if j = 5 then 1 else 0)
      = ⟨0, 0, 0, 0, 0, 1⟩ := by
  have hmask : (Vector6.ofFn fun j => if (!fresh_armed_mixer.controlled_axes.get j) = true
      then (0 : ℚ)
      else (get_command_fl round32 fresh_armed_mixer (fun j => if j = 5 then 1 else 0)).get j)
      = ⟨0, 0, 0, 0, 0, 1⟩ := by
    norm_num [fresh_armed_mixer, MultirotorMixer6dof, get_command_fl, constrain, Vector6.ofFn,
      Vector6.get, single_rotor, List.range_succ, round32_zero, round32_1]
  rw [mix_command_fl, hmask]
  norm_num [clip_command_fl, prioritary_axes, clip_group_fl, fresh_armed_mixer,
    MultirotorMixer6dof, List.range_succ, clip_rotor_fl, dot_fl, Vector6.ofFn, Vector6.get,
    lt_abs, single_rotor, round32_zero, round32_1_1000000, round32_1]

theorem fresh_armed_mixer_output :
    (mix_fl round32 sqrt32 fresh_armed_mixer (fun j => if j = 5 then 1 else 0)
      (fun _ => 0) 1).outputs 0 = 1 := by
  rw [mix_fl_outputs_lt _ _ _ _ _ _ (by simp [fresh_armed_mixer, MultirotorMixer6dof]),
    mix_limit_fl, fresh_armed_mixer_command, fresh_armed_mixer_prev, limit_output_fl_none]
  norm_num [fresh_armed_mixer, MultirotorMixer6dof, mix_rotor_fl, thrust_inversion_fl, dot_fl,
    constrain, single_rotor, round32_zero, round32_1]

end Examples

/-! ## Claims -/

section Claims

variable {α : Type} [LinearOrderedField α]

/-- C1 (as amended): with `out_min ≤ out_max`, an output written by `mix` lies in
`[out_min, out_max]` whenever no slew limit is armed (`delta_out_max ≤ 0`) or the
previous output of that rotor, if it is a number, lies in `[out_min, out_max]`;
for every geometry, scales, thrust factor, square root and control input. -/
theorem output_bounds (sqrtf : α → α) (m : Mixer α) (control : Fin 6 → α) (outputs : Nat → α)
    (space : Nat) (i : Nat) (hi : i < m.rotor_count) (hb : m.out_min ≤ m.out_max)
    (hprev : m.delta_out_max ≤ 0 ∨
      ∀ p, m.outputs_prev i = some p → m.out_min ≤ p ∧ p ≤ m.out_max) :
    m.out_min ≤ (mix sqrtf m control outputs space).outputs i ∧
      (mix sqrtf m control outputs space).outputs i ≤ m.out_max := by
  rw [mix_outputs_lt sqrtf m control outputs space hi, mix_limit]
  have ho := mix_rotor_bounds sqrtf m (mix_command m control) i hb
  rcases hprev with hd | hp
  · rw [limit_output_of_not_armed _ _ _ _ hd]; exact ho
  · cases hprev : m.outputs_prev i with
    | none => rw [limit_output_none]; exact ho
    | some p => exact limit_output_bounds _ _ _ _ _ ho (hp p hprev)

/-- C1 (witness): `output_bounds` on the mixer `slew_mixer`, whose previous output 0.5
lies within the bounds [0, 1]. -/
theorem output_bounds_witness :
    slew_mixer.out_min ≤ (mix Rat.sqrt slew_mixer (fun _ => 1) (fun _ => 0) 1).outputs 0 ∧
      (mix Rat.sqrt slew_mixer (fun _ => 1) (fun _ => 0) 1).outputs 0 ≤ slew_mixer.out_max :=
  output_bounds Rat.sqrt slew_mixer (fun _ => 1) (fun _ => 0) 1 0
    (by simp [slew_mixer, MultirotorMixer6dof])
    (by simp [slew_mixer, MultirotorMixer6dof])
    (Or.inr (by
      intro p hp
      simp only [slew_mixer, MultirotorMixer6dof, Option.some.injEq] at hp
      subst hp
      norm_num [slew_mixer, MultirotorMixer6dof]))

/-- C1 (counterexample): on the mixer constructed with idle speed 0.5 (so `out_min` is
0.5 and the constructor leaves 0.0 in the previous-output memory), armed with the slew
limit 0.1, a zero command makes `mix` write 0.1, which is below `out_min`. -/
theorem output_bounds_counterexample :
    (0 : ℚ) ≤ 1 / 2 ∧ (1 / 2 : ℚ) ≤ 1 ∧
    idle_half_mixer.out_min = 1 / 2 ∧ idle_half_mixer.out_max = 1 ∧
    0 ≤ idle_half_mixer.delta_out_max ∧ idle_half_mixer.thrust_factor = 0 ∧
    (mix Rat.sqrt idle_half_mixer (fun _ => 0) (fun _ => 0) 1).outputs 0 = 1 / 10 ∧
    ¬ (idle_half_mixer.out_min
        ≤ (mix Rat.sqrt idle_half_mixer (fun _ => 0) (fun _ => 0) 1).outputs 0) := by
  have hout := idle_half_mixer_output (fun _ => 0) 1
  refine ⟨by norm_num, by norm_num, rfl, rfl, by norm_num [idle_half_mixer], rfl, hout, ?_⟩
  rw [hout]
  norm_num [idle_half_mixer, MultirotorMixer6dof]

/-- C4 (as amended): when `delta_out_max = d > 0` on entry to `mix`, the previous output
of rotor `i` is a number `p` and the thrust factor is zero or at least `2^-60` (the range in
which the thrust inversion stays within the finite binary32 values), the output written
for rotor `i` lies within `d` of `p` up to the rounding of one operation: if each rounding
`fl` has a relative error of at most `ε ≤ 1/2` and an absolute error of at most `η` beyond
it, then `|outputs[i] - p| ≤ d + ε * (|p| + 2 * d) + 2 * η`.  In binary32 arithmetic
`ε = 2^-24` and `η = 2^-150`; in exact arithmetic `ε = η = 0` and the bound is `d`. -/
theorem slew_law (fl sqrtf : α → α) (ε η : α) (hε0 : 0 ≤ ε) (hε1 : ε ≤ 1 / 2) (hη : 0 ≤ η)
    (herr : ∀ x, |fl x - x| ≤ ε * |x| + η) (m : Mixer α) (control : Fin 6 → α)
    (outputs : Nat → α) (space : Nat) (i : Nat) (p : α) (hd : 0 < m.delta_out_max)
    (hi : i < m.rotor_count) (hp : m.outputs_prev i = some p)
    (hf : m.thrust_factor ≤ 0 ∨ 1 / 2 ^ 60 ≤ m.thrust_factor) :
    |(mix_fl fl sqrtf m control outputs space).outputs i - p|
      ≤ m.delta_out_max + ε * (|p| + 2 * m.delta_out_max) + 2 * η := by
  rw [mix_fl_outputs_lt fl sqrtf m control outputs space hi, mix_limit_fl, hp]
  exact limit_output_fl_slew fl ε η hε0 hε1 hη herr _ _ _ _ hd

/-- C4 (witness): `slew_law` in binary32 arithmetic (`round32`, with `ε = 2^-24` and
`η = 2^-150`) on `armed_mixer`, armed with `0.1f` and with previous output 0.5. -/
theorem slew_law_witness :
    |(mix_fl round32 sqrt32 armed_mixer (fun j => if j = 5 then 1 else 0) (fun _ => 0) 1).outputs 0
        - 1 / 2|
      ≤ armed_mixer.delta_out_max + 1 / 2 ^ 24 * (|1 / 2| + 2 * armed_mixer.delta_out_max)
        + 2 * (1 / 2 ^ 150) :=
  slew_law round32 sqrt32 (1 / 2 ^ 24) (1 / 2 ^ 150) (by norm_num) (by norm_num) (by norm_num)
    round32_error armed_mixer (fun j => if j = 5 then 1 else 0) (fun _ => 0) 1 0 (1 / 2)
    (by norm_num [armed_mixer])
    (by simp [armed_mixer, MultirotorMixer6dof])
    (by simp [armed_mixer])
    (Or.inl (by simp [armed_mixer, MultirotorMixer6dof]))

/-- C4 (counterexample): two failures of the slew law in binary32 arithmetic, on one rotor
of z scale 1 with the control input z = 1.  On `armed_mixer` (slew limit `0.1f`, previous
output 0.5) `mix` writes `fl (0.5 + 0.1f) = 5033165 / 8388608`, which is further than
`0.1f` from 0.5.  On `fresh_armed_mixer` (as constructed with no idle speed, then armed
with the slew limit 0.125) the previous-output memory holds no number, every comparison of
the limiter is false, and `mix` writes 1: the limiter limits nothing. -/
theorem slew_law_counterexample :
    (0 < armed_mixer.delta_out_max ∧ armed_mixer.outputs_prev 0 = some (1 / 2) ∧
      (mix_fl round32 sqrt32 armed_mixer (fun j => if j = 5 then 1 else 0)
        (fun _ => 0) 1).outputs 0 = 5033165 / 8388608 ∧
      ¬ (|(mix_fl round32 sqrt32 armed_mixer (fun j => if j = 5 then 1 else 0)
        (fun _ => 0) 1).outputs 0 - 1 / 2| ≤ armed_mixer.delta_out_max)) ∧
    (0 < fresh_armed_mixer.delta_out_max ∧ fresh_armed_mixer.outputs_prev 0 = none ∧
      (mix_fl round32 sqrt32 fresh_armed_mixer (fun j => if j = 5 then 1 else 0)
        (fun _ => 0) 1).outputs 0 = 1 ∧
      ¬ ∃ p, fresh_armed_mixer.outputs_prev 0 = some p ∧
        |(mix_fl round32 sqrt32 fresh_armed_mixer (fun j => if j = 5 then 1 else 0)
          (fun _ => 0) 1).outputs 0 - p| ≤ fresh_armed_mixer.delta_out_max) := by
  refine ⟨⟨by norm_num [armed_mixer], by simp [armed_mixer], armed_mixer_output, ?_⟩,
    ⟨by norm_num [fresh_armed_mixer], fresh_armed_mixer_prev, fresh_armed_mixer_output, ?_⟩⟩
  · rw [armed_mixer_output]
    norm_num [armed_mixer, abs_of_pos]
  · rintro ⟨p, hp, _⟩
    rw [fresh_armed_mixer_prev] at hp
    exact Option.noConfusion hp

/-- C5: when `controlled_axes[j]` is false, two calls of `mix` from the same state whose
control inputs differ on axis `j` only write the same output for every rotor. -/
theorem uncontrolled_axis_nullity (sqrtf : α → α) (m : Mixer α) (control control' : Fin 6 → α)
    (outputs : Nat → α) (space : Nat) (j : Fin 6) (hj : m.controlled_axes.get j = false)
    (hc : ∀ k, k ≠ j → control k = control' k) (i : Nat) :
    (mix sqrtf m control outputs space).outputs i
      = (mix sqrtf m control' outputs space).outputs i := by
  simp only [mix_outputs, mix_limit, mix_command_congr m control control' j hj hc]

/-- C5 (witness): `uncontrolled_axis_nullity` on `slew_mixer`, whose geometry has no roll
authority, for a roll input of 1 against a roll input of 0. -/
theorem uncontrolled_axis_nullity_witness :
    (mix Rat.sqrt slew_mixer (fun k => if k = 0 then 1 else 0) (fun _ => 0) 1).outputs 0
      = (mix Rat.sqrt slew_mixer (fun _ => 0) (fun _ => 0) 1).outputs 0 :=
  uncontrolled_axis_nullity Rat.sqrt slew_mixer (fun k => if k = 0 then 1 else 0) (fun _ => 0)
    (fun _ => 0) 1 0
    (by norm_num [slew_mixer, MultirotorMixer6dof, Vector6.ofFn, Vector6.get, single_rotor,
      List.range_succ])
    (by intro k hk; simp [hk]) 0

/-- C6: after `mix`, for every rotor `i` and axis `j`: clipping high with a positive scale
sets `<axis j>_pos`, clipping high with a negative scale sets `<axis j>_neg`, clipping low
with a positive scale sets `<axis j>_neg`, clipping low with a negative scale sets
`<axis j>_pos`; the flags are read in the status word that `mix` leaves, after all rotors.
And a flag that is set after the first `n` rotors of the loop is still set after any
larger number `n'` of rotors. -/
theorem saturation_consistency (sqrtf : α → α) (m : Mixer α) (control : Fin 6 → α)
    (outputs : Nat → α) (space : Nat) (i : Nat) (hi : i < m.rotor_count) (j : Fin 6) :
    ((mix_limit sqrtf m control i).2.1 = true → 0 < (m.rotors i).get j →
        get_pos (mix sqrtf m control outputs space).mixer.saturation_status j = true) ∧
    ((mix_limit sqrtf m control i).2.1 = true → (m.rotors i).get j < 0 →
        get_neg (mix sqrtf m control outputs space).mixer.saturation_status j = true) ∧
    ((mix_limit sqrtf m control i).2.2 = true → 0 < (m.rotors i).get j →
        get_neg (mix sqrtf m control outputs space).mixer.saturation_status j = true) ∧
    ((mix_limit sqrtf m control i).2.2 = true → (m.rotors i).get j < 0 →
        get_pos (mix sqrtf m control outputs space).mixer.saturation_status j = true) ∧
    (∀ n n', n ≤ n' →
      get_pos (status_after m.rotors (fun r => (mix_limit sqrtf m control r).2)
        (status_start m) n) j = true →
      get_pos (status_after m.rotors (fun r => (mix_limit sqrtf m control r).2)
        (status_start m) n') j = true) ∧
    (∀ n n', n ≤ n' →
      get_neg (status_after m.rotors (fun r => (mix_limit sqrtf m control r).2)
        (status_start m) n) j = true →
      get_neg (status_after m.rotors (fun r => (mix_limit sqrtf m control r).2)
        (status_start m) n') j = true) := by
  rw [mix_status]
  refine ⟨fun h hs => ?_, fun h hs => ?_, fun h hs => ?_, fun h hs => ?_,
    fun n n' hn hp => get_pos_status_after_mono _ _ _ n n' hn j hp,
    fun n n' hn hp => get_neg_status_after_mono _ _ _ n n' hn j hp⟩
  · exact (get_pos_status_after _ _ _ _ _).mpr (Or.inr ⟨i, hi, Or.inl ⟨h, hs⟩⟩)
  · exact (get_neg_status_after _ _ _ _ _).mpr (Or.inr ⟨i, hi, Or.inl ⟨h, hs⟩⟩)
  · exact (get_neg_status_after _ _ _ _ _).mpr (Or.inr ⟨i, hi, Or.inr ⟨h, hs⟩⟩)
  · exact (get_pos_status_after _ _ _ _ _).mpr (Or.inr ⟨i, hi, Or.inr ⟨h, hs⟩⟩)

/-- C6 (witness): on `idle_half_mixer` with a zero command the only rotor clips high
(slew limit) and its z scale is positive, so `saturation_consistency` gives
`z_thrust_pos`. -/
theorem saturation_consistency_witness :
    (mix_limit Rat.sqrt idle_half_mixer (fun _ => 0) 0).2.1 = true ∧
    0 < (idle_half_mixer.rotors 0).get 5 ∧
    get_pos (mix Rat.sqrt idle_half_mixer (fun _ => 0) (fun _ => 0) 1).mixer.saturation_status 5
      = true := by
  have h1 : (mix_limit Rat.sqrt idle_half_mixer (fun _ => 0) 0).2.1 = true := by
    rw [idle_half_mixer_limit _ (fun _ => rfl)]
  have h2 : 0 < (idle_half_mixer.rotors 0).get 5 := by
    norm_num [idle_half_mixer, MultirotorMixer6dof, single_rotor, Vector6.get]
  exact ⟨h1, h2, (saturation_consistency Rat.sqrt idle_half_mixer (fun _ => 0) (fun _ => 0) 1 0
    (by simp [idle_half_mixer, MultirotorMixer6dof]) 5).1 h1 h2⟩

/-- C7 (as amended): `mix` does not look at the capacity `space`: for every mixer and
every capacity it returns the rotor count, writes the limited output of every rotor, and
its whole result (outputs written and mixer state left) is the one it gives for any other
capacity. -/
theorem mix_ignores_capacity (sqrtf : α → α) (m : Mixer α) (control : Fin 6 → α)
    (outputs : Nat → α) (space space' : Nat) :
    (mix sqrtf m control outputs space).count = m.rotor_count ∧
      (∀ i, i < m.rotor_count →
        (mix sqrtf m control outputs space).outputs i = (mix_limit sqrtf m control i).1) ∧
      mix sqrtf m control outputs space = mix sqrtf m control outputs space' :=
  ⟨rfl, fun _ hi => mix_outputs_lt sqrtf m control outputs space hi, rfl⟩

/-- C7 (counterexample): `idle_half_mixer` has one rotor; called with capacity 0 on a
buffer of zeros, `mix` returns 1, writes 0.1 to `outputs[0]`, stores it in
`outputs_prev[0]` (which held 0.0) and resets `delta_out_max` from 0.1 to 0. -/
theorem insufficient_capacity_counterexample :
    0 < idle_half_mixer.rotor_count ∧
    (mix Rat.sqrt idle_half_mixer (fun _ => 0) (fun _ => 0) 0).count = 1 ∧
    (mix Rat.sqrt idle_half_mixer (fun _ => 0) (fun _ => 0) 0).outputs 0 = 1 / 10 ∧
    (mix Rat.sqrt idle_half_mixer (fun _ => 0) (fun _ => 0) 0).mixer.outputs_prev 0
      = some (1 / 10) ∧
    idle_half_mixer.outputs_prev 0 = some 0 ∧
    idle_half_mixer.delta_out_max = 1 / 10 ∧
    (mix Rat.sqrt idle_half_mixer (fun _ => 0) (fun _ => 0) 0).mixer.delta_out_max = 0 := by
  refine ⟨by simp [idle_half_mixer, MultirotorMixer6dof], rfl, idle_half_mixer_output _ _, ?_,
    idle_half_mixer_prev, rfl, rfl⟩
  simp only [mix_outputs_prev]
  rw [if_pos (by simp [idle_half_mixer, MultirotorMixer6dof]),
    idle_half_mixer_limit _ (fun _ => rfl)]

/-- C8 (the code at the failing input): constructed with idle speed 0.5, the mixer holds
0.0 in `outputs_prev[0]`, not 0.5: `memset` fills the bytes with `(int)(-1 + 2 * 0.5) = 0`. -/
theorem seeding_idle_half :
    (MultirotorMixer6dof 1 single_rotor 1 1 1 1 1 1 (1 / 2)).outputs_prev 0 = some 0 ∧
    (MultirotorMixer6dof 1 single_rotor 1 1 1 1 1 1 (1 / 2)).outputs_prev 0
      ≠ some (1 / 2 : ℚ) := by
  have h : (MultirotorMixer6dof 1 single_rotor 1 1 1 1 1 1 (1 / 2)).outputs_prev 0
      = some (0 : ℚ) := idle_half_mixer_prev
  rw [h]
  exact ⟨rfl, by norm_num⟩

/-- C9: for a geometry of at least one rotor, the status word left by `mix` has
`valid = true`, for every state and input. -/
theorem status_valid (sqrtf : α → α) (m : Mixer α) (control : Fin 6 → α) (outputs : Nat → α)
    (space : Nat) (h : 0 < m.rotor_count) :
    (mix sqrtf m control outputs space).mixer.saturation_status.valid = true := by
  rw [mix_status]
  exact status_after_valid _ _ _ _ h

/-- C9 (witness): `status_valid` on the one-rotor mixer `slew_mixer`. -/
theorem status_valid_witness :
    (mix Rat.sqrt slew_mixer (fun _ => 1) (fun _ => 0) 1).mixer.saturation_status.valid = true :=
  status_valid Rat.sqrt slew_mixer (fun _ => 1) (fun _ => 0) 1
    (by simp [slew_mixer, MultirotorMixer6dof])

/-- C10 (as amended): in binary32 arithmetic, when all six control inputs are zero and no slew
limit is armed (`delta_out_max = 0` on entry), with `out_min` in [0, 1], `out_max = 1` and a
thrust factor `f` that is zero or in [2^-60, 1 - 2^-24] (every binary32 value of [2^-60, 1);
the lower bound keeps the thrust inversion within the finite binary32 values), `mix` writes
to every output the thrust inversion at 0 constrained to `[out_min, out_max]`.  That value
is `out_min` when `f = 0`; for `f > 0` it lies between `out_min` and the larger of `out_min`
and `2^-21 / f`, the bound on what the rounded terms `-(1 - f) / (2 f)` and
`sqrtf ((1 - f) (1 - f) / (4 f f) + 0)` leave uncancelled, and so it is `out_min` whenever
`2^-21 / f ≤ out_min`. -/
theorem zero_command (m : Mixer ℚ) (control : Fin 6 → ℚ) (outputs : Nat → ℚ) (space : Nat)
    (hc : ∀ j, control j = 0) (hmin : 0 ≤ m.out_min) (hmin1 : m.out_min ≤ 1)
    (hmax : m.out_max = 1)
    (hf : m.thrust_factor = 0
      ∨ (1 / 2 ^ 60 ≤ m.thrust_factor ∧ m.thrust_factor ≤ 1 - 1 / 2 ^ 24))
    (hd : m.delta_out_max = 0) (i : Nat) (hi : i < m.rotor_count) :
    (mix_fl round32 sqrt32 m control outputs space).outputs i
        = constrain (thrust_inversion_fl round32 sqrt32 m.thrust_factor 0)
            m.out_min m.out_max ∧
      (m.thrust_factor = 0 →
        (mix_fl round32 sqrt32 m control outputs space).outputs i = m.out_min) ∧
      (0 < m.thrust_factor →
        m.out_min ≤ (mix_fl round32 sqrt32 m control outputs space).outputs i ∧
        (mix_fl round32 sqrt32 m control outputs space).outputs i
          ≤ max m.out_min (1 / (2 ^ 21 * m.thrust_factor))) ∧
      (0 < m.thrust_factor → 1 / (2 ^ 21 * m.thrust_factor) ≤ m.out_min →
        (mix_fl round32 sqrt32 m control outputs space).outputs i = m.out_min) := by
  have hout := mix_fl_zero_command round32 sqrt32 round32_zero
    (by rw [round32_1_1000000]; norm_num) m control outputs space hc hd i hi
  have hle : ∀ p : ℚ, p ≤ m.out_min → constrain p m.out_min m.out_max = m.out_min := by
    intro p hp
    unfold constrain
    split_ifs with a b
    · rfl
    · rw [hmax] at b
      exact absurd (lt_of_lt_of_le b (le_trans hp hmin1)) (lt_irrefl 1)
    · exact le_antisymm hp (not_lt.mp a)
  have hp : 0 < m.thrust_factor →
      thrust_inversion_fl round32 sqrt32 m.thrust_factor 0
        ≤ 1 / (2 ^ 21 * m.thrust_factor) := by
    intro h
    rcases hf with h0 | ⟨h1, h2⟩
    · exact absurd h0 (ne_of_gt h)
    · exact thrust_inversion_fl_le _ h1 h2
  refine ⟨hout, ?_, ?_, ?_⟩
  · intro h0
    rw [hout]
    apply hle
    rw [thrust_inversion_fl, h0, if_neg (lt_irrefl 0)]
    exact hmin
  · intro h
    rw [hout]
    have hb := hp h
    generalize thrust_inversion_fl round32 sqrt32 m.thrust_factor 0 = p at hb
    unfold constrain
    split_ifs with a b
    · exact ⟨le_refl _, le_max_left _ _⟩
    · rw [hmax] at b ⊢
      exact ⟨hmin1, le_trans (le_of_lt b) (le_trans hb (le_max_right _ _))⟩
    · exact ⟨not_lt.mp a, le_trans hb (le_max_right _ _)⟩
  · intro h hb
    rw [hout]
    exact hle _ (le_trans (hp h) hb)

/-- C10 (witness): `zero_command` on `thrust_mixer` (idle speed 0.25, thrust factor 0.5). -/
theorem zero_command_witness :
    (mix_fl round32 sqrt32 thrust_mixer (fun _ => 0) (fun _ => 0) 1).outputs 0
        = constrain (thrust_inversion_fl round32 sqrt32 thrust_mixer.thrust_factor 0)
            thrust_mixer.out_min thrust_mixer.out_max ∧
      (thrust_mixer.thrust_factor = 0 →
        (mix_fl round32 sqrt32 thrust_mixer (fun _ => 0) (fun _ => 0) 1).outputs 0
          = thrust_mixer.out_min) ∧
      (0 < thrust_mixer.thrust_factor →
        thrust_mixer.out_min
          ≤ (mix_fl round32 sqrt32 thrust_mixer (fun _ => 0) (fun _ => 0) 1).outputs 0 ∧
        (mix_fl round32 sqrt32 thrust_mixer (fun _ => 0) (fun _ => 0) 1).outputs 0
          ≤ max thrust_mixer.out_min (1 / (2 ^ 21 * thrust_mixer.thrust_factor))) ∧
      (0 < thrust_mixer.thrust_factor →
        1 / (2 ^ 21 * thrust_mixer.thrust_factor) ≤ thrust_mixer.out_min →
        (mix_fl round32 sqrt32 thrust_mixer (fun _ => 0) (fun _ => 0) 1).outputs 0
          = thrust_mixer.out_min) :=
  zero_command thrust_mixer (fun _ => 0) (fun _ => 0) 1 (fun _ => rfl)
    (by norm_num [thrust_mixer, MultirotorMixer6dof])
    (by norm_num [thrust_mixer, MultirotorMixer6dof])
    (by simp [thrust_mixer, MultirotorMixer6dof])
    (Or.inr (by norm_num [thrust_mixer]))
    (by simp [thrust_mixer, MultirotorMixer6dof])
    0 (by simp [thrust_mixer, MultirotorMixer6dof])

/-- C10 (counterexample): on `thin_thrust_mixer` (one rotor, no idle speed so `out_min = 0`,
thrust factor `0.01f`, no slew limit armed) the zero command makes `mix` write `2^-18` in
binary32 arithmetic, not `out_min`: `-(1 - f) / (2 f)` rounds to -49.5 and the square root
to 12976129 / 262144, one unit in the last place above 49.5. -/
theorem zero_command_counterexample :
    thin_thrust_mixer.out_min = 0 ∧ thin_thrust_mixer.out_max = 1 ∧
    1 / 2 ^ 60 ≤ thin_thrust_mixer.thrust_factor ∧ thin_thrust_mixer.thrust_factor < 1 ∧
    thin_thrust_mixer.delta_out_max = 0 ∧
    (mix_fl round32 sqrt32 thin_thrust_mixer (fun _ => 0) (fun _ => 0) 1).outputs 0
      = 1 / 262144 ∧
    (mix_fl round32 sqrt32 thin_thrust_mixer (fun _ => 0) (fun _ => 0) 1).outputs 0
      ≠ thin_thrust_mixer.out_min := by
  refine ⟨rfl, rfl, by norm_num [thin_thrust_mixer], by norm_num [thin_thrust_mixer], rfl,
    thin_thrust_mixer_output, ?_⟩
  rw [thin_thrust_mixer_output]
  norm_num [thin_thrust_mixer, MultirotorMixer6dof]

/-- C12: after `mix` returns `delta_out_max` is 0; a call entered with `delta_out_max = 0`
writes for each rotor the clamped, thrust-inverted mix of the projected command, whatever
`outputs_prev` holds; and so does every call that follows a call of `mix` without the
slew limit being set again. -/
theorem slew_rearm (sqrtf : α → α) (m : Mixer α) (control : Fin 6 → α) (outputs : Nat → α)
    (space : Nat) :
    (mix sqrtf m control outputs space).mixer.delta_out_max = 0 ∧
    (m.delta_out_max = 0 → ∀ i, i < m.rotor_count →
      (mix sqrtf m control outputs space).outputs i
        = mix_rotor sqrtf m (mix_command m control) i) ∧
    (∀ (control' : Fin 6 → α) (outputs' : Nat → α) (space' : Nat) (i : Nat),
      i < m.rotor_count →
      (mix sqrtf (mix sqrtf m control outputs space).mixer control' outputs' space').outputs i
        = mix_rotor sqrtf m (mix_command m control') i) := by
  refine ⟨rfl, ?_, ?_⟩
  · intro hd i hi
    rw [mix_outputs_lt sqrtf m control outputs space hi, mix_limit,
      limit_output_of_not_armed _ _ _ _ (le_of_eq hd)]
  · intro control' outputs' space' i hi
    have hm := mix_mixer sqrtf m control outputs space
    have hi' : i < (mix sqrtf m control outputs space).mixer.rotor_count := by
      rw [hm]; exact hi
    rw [mix_outputs_lt sqrtf _ control' outputs' space' hi', mix_limit,
      limit_output_of_not_armed _ _ _ _ (le_of_eq (mix_delta_out_max sqrtf m control outputs space)),
      hm]
    rfl

/-- C13: after `mix` returns, `outputs_prev[i]` holds the value written to `outputs[i]`,
for every rotor `i`, and that value is the output after slew limiting. -/
theorem outputs_prev_tracks_outputs (sqrtf : α → α) (m : Mixer α) (control : Fin 6 → α)
    (outputs : Nat → α) (space : Nat) (i : Nat) (hi : i < m.rotor_count) :
    (mix sqrtf m control outputs space).mixer.outputs_prev i
        = some ((mix sqrtf m control outputs space).outputs i) ∧
      (mix sqrtf m control outputs space).outputs i = (mix_limit sqrtf m control i).1 := by
  rw [mix_outputs_prev, mix_outputs_lt sqrtf m control outputs space hi]
  simp [hi]

/-- C13 (witness): `outputs_prev_tracks_outputs` on `idle_half_mixer`, where the clamped
output 0.5 is slew limited to 0.1. -/
theorem outputs_prev_tracks_outputs_witness :
    (mix Rat.sqrt idle_half_mixer (fun _ => 0) (fun _ => 0) 1).mixer.outputs_prev 0
        = some ((mix Rat.sqrt idle_half_mixer (fun _ => 0) (fun _ => 0) 1).outputs 0) ∧
      (mix Rat.sqrt idle_half_mixer (fun _ => 0) (fun _ => 0) 1).outputs 0
        = (mix_limit Rat.sqrt idle_half_mixer (fun _ => 0) 0).1 :=
  outputs_prev_tracks_outputs Rat.sqrt idle_half_mixer (fun _ => 0) (fun _ => 0) 1 0
    (by simp [idle_half_mixer, MultirotorMixer6dof])

/-- C15: when the z-only part of the desired command saturates no motor
(`out_min ≤ z * s_i[5] ≤ out_max` for every rotor `i`), the z component of the result of
`clip_command` is the desired z, whatever the other desired axes, geometry and bounds. -/
theorem vertical_thrust_first (m : Mixer α) (d : Vector6 α)
    (h : ∀ i, i < m.rotor_count → m.out_min ≤ d.z_thrust * (m.rotors i).z_thrust ∧
      d.z_thrust * (m.rotors i).z_thrust ≤ m.out_max) :
    (clip_command m d).z_thrust = d.z_thrust := by
  have hf : feasible m ⟨0, 0, 0, 0, 0, d.z_thrust⟩ := by
    intro i hi
    have e : dot ⟨0, 0, 0, 0, 0, d.z_thrust⟩ (m.rotors i)
        = d.z_thrust * (m.rotors i).z_thrust := by
      simp [dot]
    rw [e]
    exact h i hi
  have h1 := clip_group_of_feasible m d ⟨0, 0, 0, 0, 0, 0⟩ ⟨0, 0, 0, 0, 0, d.z_thrust⟩
    ⟨false, false, false, false, false, true⟩ (by simp [Vector6.ofFn, Vector6.get]) hf
  have h2 := clip_command_get_eq_upto m d 5
  rw [priority_group_eq.2.2.2.2.2] at h2
  simp only [clip_upto, prioritary_axes, List.take, List.take_nil, List.foldl] at h2
  rw [h1] at h2
  exact h2

/-- C15 (witness): `vertical_thrust_first` on `roll_mixer` for the desired command
roll = 1, z = 1. -/
theorem vertical_thrust_first_witness :
    (clip_command roll_mixer ⟨1, 0, 0, 0, 0, 1⟩).z_thrust = 1 :=
  vertical_thrust_first roll_mixer ⟨1, 0, 0, 0, 0, 1⟩ (by
    intro i hi
    have hi2 : i < 2 := hi
    interval_cases i <;> norm_num [roll_mixer, MultirotorMixer6dof])

/-- C17 (the code at the failing input): on `quad_mixer`, constructed with idle speed 0.1,
`out_min` is 0.1 and the zero command gives the first rotor the output 0, below `out_min`:
the baseline with which `clip_command` starts saturates the motor. -/
theorem baseline_infeasible :
    quad_mixer.out_min = 1 / 10 ∧ quad_mixer.out_max = 1 ∧ 0 < quad_mixer.rotor_count ∧
    dot ⟨0, 0, 0, 0, 0, 0⟩ (quad_mixer.rotors 0) = 0 ∧
    ¬ (quad_mixer.out_min ≤ dot ⟨0, 0, 0, 0, 0, 0⟩ (quad_mixer.rotors 0)) := by
  refine ⟨rfl, rfl, by simp [quad_mixer, MultirotorMixer6dof], dot_zero_left _, ?_⟩
  rw [dot_zero_left]
  norm_num [quad_mixer, MultirotorMixer6dof]

/-- C18: if two desired commands agree on the axes of the priority groups `0 .. g`, the
results of `clip_command` agree on these axes, for every geometry and bounds. -/
theorem lower_priority_independence (m : Mixer α) (d d' : Vector6 α) (g : Nat)
    (h : ∀ j, priority_group j ≤ g → d.get j = d'.get j) (j : Fin 6)
    (hj : priority_group j ≤ g) :
    (clip_command m d).get j = (clip_command m d').get j := by
  rw [clip_command_get_eq_upto, clip_command_get_eq_upto,
    clip_upto_congr m d d' (priority_group j) (fun j' hj' => h j' (le_trans hj' hj))]

/-- C18 (witness): `lower_priority_independence` on `roll_mixer`: the commands
roll = 1, z = 1 and roll = -1, z = 1 agree on group 0 and give the same z. -/
theorem lower_priority_independence_witness :
    (clip_command roll_mixer ⟨1, 0, 0, 0, 0, 1⟩).get 5
      = (clip_command roll_mixer ⟨-1, 0, 0, 0, 0, 1⟩).get 5 :=
  lower_priority_independence roll_mixer ⟨1, 0, 0, 0, 0, 1⟩ ⟨-1, 0, 0, 0, 0, 1⟩ 0
    (by
      obtain ⟨p0, p1, p2, p3, p4, p5⟩ := priority_group_eq
      intro j hj
      fin_cases j <;> simp_all [Vector6.get])
    5 (by rw [priority_group_eq.2.2.2.2.2])

/-- C20: after `mix`, `<axis j>_pos` is set only if some rotor of this call was clipping
high with `s_ij > 0` or clipping low with `s_ij < 0`, and `<axis j>_neg` only if some rotor
was clipping high with `s_ij < 0` or clipping low with `s_ij > 0`; the legacy flags
`thrust_pos` and `thrust_neg` are not set; and when every rotor's clamped output lies in
`[out_min + 0.01, 0.99]` and no slew limit is hit, no `_pos` or `_neg` flag is set. -/
theorem no_spurious_flags (sqrtf : α → α) (m : Mixer α) (control : Fin 6 → α)
    (outputs : Nat → α) (space : Nat) :
    (∀ j, get_pos (mix sqrtf m control outputs space).mixer.saturation_status j = true →
      ∃ i, i < m.rotor_count ∧
        (((mix_limit sqrtf m control i).2.1 = true ∧ 0 < (m.rotors i).get j) ∨
          ((mix_limit sqrtf m control i).2.2 = true ∧ (m.rotors i).get j < 0))) ∧
    (∀ j, get_neg (mix sqrtf m control outputs space).mixer.saturation_status j = true →
      ∃ i, i < m.rotor_count ∧
        (((mix_limit sqrtf m control i).2.1 = true ∧ (m.rotors i).get j < 0) ∨
          ((mix_limit sqrtf m control i).2.2 = true ∧ 0 < (m.rotors i).get j))) ∧
    (mix sqrtf m control outputs space).mixer.saturation_status.thrust_pos = false ∧
    (mix sqrtf m control outputs space).mixer.saturation_status.thrust_neg = false ∧
    ((∀ i, i < m.rotor_count →
        m.out_min + 1 / 100 ≤ mix_rotor sqrtf m (mix_command m control) i ∧
        mix_rotor sqrtf m (mix_command m control) i ≤ 99 / 100 ∧
        (m.delta_out_max ≤ 0 ∨ ∀ p, m.outputs_prev i = some p →
          |mix_rotor sqrtf m (mix_command m control) i - p| ≤ m.delta_out_max)) →
      ∀ j, get_pos (mix sqrtf m control outputs space).mixer.saturation_status j = false ∧
        get_neg (mix sqrtf m control outputs space).mixer.saturation_status j = false) := by
  rw [mix_status]
  have hpos : ∀ j, get_pos (status_after m.rotors (fun i => (mix_limit sqrtf m control i).2)
      (status_start m) m.rotor_count) j = true →
      ∃ i, i < m.rotor_count ∧
        (((mix_limit sqrtf m control i).2.1 = true ∧ 0 < (m.rotors i).get j) ∨
          ((mix_limit sqrtf m control i).2.2 = true ∧ (m.rotors i).get j < 0)) := by
    intro j h
    rcases (get_pos_status_after _ _ _ _ _).mp h with h0 | h1
    · rw [get_pos_status_start] at h0; exact absurd h0 (by simp)
    · exact h1
  have hneg : ∀ j, get_neg (status_after m.rotors (fun i => (mix_limit sqrtf m control i).2)
      (status_start m) m.rotor_count) j = true →
      ∃ i, i < m.rotor_count ∧
        (((mix_limit sqrtf m control i).2.1 = true ∧ (m.rotors i).get j < 0) ∨
          ((mix_limit sqrtf m control i).2.2 = true ∧ 0 < (m.rotors i).get j)) := by
    intro j h
    rcases (get_neg_status_after _ _ _ _ _).mp h with h0 | h1
    · rw [get_neg_status_start] at h0; exact absurd h0 (by simp)
    · exact h1
  refine ⟨hpos, hneg, (status_after_thrust _ _ _ _).1, (status_after_thrust _ _ _ _).2, ?_⟩
  intro hq j
  have hflags : ∀ i, i < m.rotor_count → (mix_limit sqrtf m control i).2 = (false, false) :=
    fun i hi => limit_output_quiet _ _ _ _ (hq i hi).1 (hq i hi).2.1 (hq i hi).2.2
  constructor
  · by_contra h
    obtain ⟨i, hi, h1⟩ := hpos j (by simpa using h)
    rw [hflags i hi] at h1
    simp at h1
  · by_contra h
    obtain ⟨i, hi, h1⟩ := hneg j (by simpa using h)
    rw [hflags i hi] at h1
    simp at h1

/-- C20 (witness): on `plain_mixer` with the command z = 0.5 and no slew limit the only
output is 0.5, and `no_spurious_flags` gives `z_thrust_pos` and `z_thrust_neg` cleared. -/
theorem no_spurious_flags_witness :
    get_pos (mix Rat.sqrt plain_mixer (fun j => if j = 5 then 1 / 2 else 0)
        (fun _ => 0) 1).mixer.saturation_status 5 = false ∧
      get_neg (mix Rat.sqrt plain_mixer (fun j => if j = 5 then 1 / 2 else 0)
        (fun _ => 0) 1).mixer.saturation_status 5 = false :=
  (no_spurious_flags Rat.sqrt plain_mixer (fun j => if j = 5 then 1 / 2 else 0)
    (fun _ => 0) 1).2.2.2.2 (by
      intro i hi
      have hi1 : i < 1 := hi
      have hi0 : i = 0 := by omega
      subst hi0
      rw [plain_mixer_rotor]
      refine ⟨by norm_num [plain_mixer, MultirotorMixer6dof], by norm_num, Or.inl ?_⟩
      norm_num [plain_mixer, MultirotorMixer6dof]) 5

end Claims

end MultirotorMixer6dof
